import Mathlib

/-!
Verification of the location-resolution and aggregation engine of pictomap
(src/main.py).

Python datetime values are modelled as six-field structures of naturals.
The strftime and strptime calls on the two fixed formats used by the
program are modelled character by character.  The run-scoped mutable
state of scan_images (results, location_cache, the counters and the
error-message list) is threaded explicitly through a state structure.
The external geocoder is modelled by an oracle giving the outcome of
each attempt for each coordinate, and time.sleep is modelled by
accumulating the slept seconds.  Coordinates are modelled by an abstract
pair type, and the float rounding of round_coordinates by an arbitrary
quantization function passed to the scan, since binary floating point
arithmetic is outside the verified logic.
-/

/-- Model of datetime.datetime restricted to the fields the program uses. -/
structure DateTime where
  year : Nat
  month : Nat
  day : Nat
  hour : Nat
  minute : Nat
  second : Nat
  deriving DecidableEq, Repr

/-- Chronological comparison of datetime values: lexicographic on the
six fields, which coincides with Python datetime comparison for valid
values. -/
def DateTime.ltb (a b : DateTime) : Bool :=
  Nat.blt a.year b.year ||
    (a.year == b.year && (Nat.blt a.month b.month ||
      (a.month == b.month && (Nat.blt a.day b.day ||
        (a.day == b.day && (Nat.blt a.hour b.hour ||
          (a.hour == b.hour && (Nat.blt a.minute b.minute ||
            (a.minute == b.minute && Nat.blt a.second b.second)))))))))

theorem DateTime.ltb_iff (a b : DateTime) :
    a.ltb b = true ↔
      (a.year < b.year ∨ (a.year = b.year ∧ (a.month < b.month ∨ (a.month = b.month ∧
        (a.day < b.day ∨ (a.day = b.day ∧ (a.hour < b.hour ∨ (a.hour = b.hour ∧
          (a.minute < b.minute ∨ (a.minute = b.minute ∧ a.second < b.second)))))))))) := by
  simp [DateTime.ltb, Nat.blt_eq]

/-- Gregorian leap-year rule, as validated by the datetime constructor. -/
def isLeapYear (y : Nat) : Bool := (y % 4 == 0 && y % 100 != 0) || y % 400 == 0

/-- Length of a month, as validated by the datetime constructor. -/
def daysInMonth (y m : Nat) : Nat :=
  if m = 2 then (if isLeapYear y then 29 else 28)
  else if m = 4 ∨ m = 6 ∨ m = 9 ∨ m = 11 then 30
  else 31

/-- Range validation performed by the datetime constructor on the date
fields (strptime rejects out-of-range components). -/
def dateValid (y mo d : Nat) : Prop :=
  1 ≤ y ∧ y ≤ 9999 ∧ 1 ≤ mo ∧ mo ≤ 12 ∧ 1 ≤ d ∧ d ≤ daysInMonth y mo

instance (y mo d : Nat) : Decidable (dateValid y mo d) := by
  unfold dateValid; infer_instance

/-- Range validation performed by the datetime constructor on the time
fields. -/
def timeValid (h mi s : Nat) : Prop := h ≤ 23 ∧ mi ≤ 59 ∧ s ≤ 59

instance (h mi s : Nat) : Decidable (timeValid h mi s) := by
  unfold timeValid; infer_instance

/-- A datetime value every field of which is in the range accepted and
produced by strptime and strftime. -/
def DateTime.valid (t : DateTime) : Prop :=
  dateValid t.year t.month t.day ∧ timeValid t.hour t.minute t.second

instance (t : DateTime) : Decidable t.valid := by
  unfold DateTime.valid; infer_instance

/-- Two-digit zero-padded decimal rendering, as strftime produces for
the fields %m %d %H %M %S. -/
def pad2 (n : Nat) : List Char := [Nat.digitChar (n / 10 % 10), Nat.digitChar (n % 10)]

/-- Four-digit zero-padded decimal rendering, as strftime produces for
the field %Y. -/
def pad4 (n : Nat) : List Char :=
  [Nat.digitChar (n / 1000 % 10), Nat.digitChar (n / 100 % 10),
   Nat.digitChar (n / 10 % 10), Nat.digitChar (n % 10)]

/-- Model of date_taken.strftime with format %Y-%m-%d. -/
def fmtDate (t : DateTime) : String :=
  String.mk (pad4 t.year ++ '-' :: pad2 t.month ++ '-' :: pad2 t.day)

/-- Model of date_taken.strftime with format %H:%M:%S. -/
def fmtTime (t : DateTime) : String :=
  String.mk (pad2 t.hour ++ ':' :: pad2 t.minute ++ ':' :: pad2 t.second)

/-- Value of an ASCII decimal digit character, the character class
strptime accepts for a numeric field. -/
def digitVal (c : Char) : Option Nat :=
  if c = '0' then some 0 else if c = '1' then some 1 else if c = '2' then some 2
  else if c = '3' then some 3 else if c = '4' then some 4 else if c = '5' then some 5
  else if c = '6' then some 6 else if c = '7' then some 7 else if c = '8' then some 8
  else if c = '9' then some 9 else none

/-- Read a two-digit zero-padded field, as strptime does for %m %d %H %M %S
on the strings this program produces. -/
def read2 : List Char → Option (Nat × List Char)
  | c1 :: c2 :: rest =>
    match digitVal c1, digitVal c2 with
    | some d1, some d2 => some (d1 * 10 + d2, rest)
    | _, _ => none
  | _ => none

/-- Read a four-digit zero-padded field, as strptime does for %Y on the
strings this program produces. -/
def read4 : List Char → Option (Nat × List Char)
  | c1 :: c2 :: c3 :: c4 :: rest =>
    match digitVal c1, digitVal c2, digitVal c3, digitVal c4 with
    | some d1, some d2, some d3, some d4 =>
        some (((d1 * 10 + d2) * 10 + d3) * 10 + d4, rest)
    | _, _, _, _ => none
  | _ => none

/-- Consume one literal character of the format string. -/
def expectCh (c : Char) : List Char → Option (List Char)
  | c2 :: rest => if c2 = c then some rest else none
  | [] => none

/-- Parse the %Y-%m-%d prefix shared by both strptime formats used in
the program. -/
def parseDateChars (l : List Char) : Option (Nat × Nat × Nat × List Char) :=
  match read4 l with
  | none => none
  | some (y, l1) =>
    match expectCh '-' l1 with
    | none => none
    | some l2 =>
      match read2 l2 with
      | none => none
      | some (mo, l3) =>
        match expectCh '-' l3 with
        | none => none
        | some l4 =>
          match read2 l4 with
          | none => none
          | some (d, l5) => some (y, mo, d, l5)

/-- Final step of strptime with format %Y-%m-%d: the whole string must
have been consumed and the fields must be in range; the unset time
fields default to zero. -/
def finishDate : Nat × Nat × Nat × List Char → Option DateTime
  | (y, mo, d, []) =>
      if dateValid y mo d then some (DateTime.mk y mo d 0 0 0) else none
  | _ => none

/-- Model of datetime.strptime(s, %Y-%m-%d), as used by
count_days_in_cities. -/
def parseDate (s : String) : Option DateTime :=
  (parseDateChars s.data).bind finishDate

/-- Model of datetime.strptime(s, %Y-%m-%d %H:%M:%S), as used by the
dedup comparison in scan_images. -/
def parseDateTime (s : String) : Option DateTime :=
  match parseDateChars s.data with
  | none => none
  | some (y, mo, d, rest) =>
    match expectCh ' ' rest with
    | none => none
    | some l1 =>
      match read2 l1 with
      | none => none
      | some (h, l2) =>
        match expectCh ':' l2 with
        | none => none
        | some l3 =>
          match read2 l3 with
          | none => none
          | some (mi, l4) =>
            match expectCh ':' l4 with
            | none => none
            | some l5 =>
              match read2 l5 with
              | none => none
              | some (sec, l6) =>
                match l6 with
                | [] =>
                    if dateValid y mo d ∧ timeValid h mi sec then
                      some (DateTime.mk y mo d h mi sec)
                    else none
                | _ => none

theorem digitVal_digitChar {d : Nat} (h : d < 10) : digitVal (Nat.digitChar d) = some d := by
  interval_cases d <;> decide

theorem digitVal_eq_some {c : Char} {d : Nat} (h : digitVal c = some d) :
    Nat.digitChar d = c ∧ d < 10 := by
  unfold digitVal at h
  split_ifs at h with h0 h1 h2 h3 h4 h5 h6 h7 h8 h9 <;>
    first
    | exact Option.noConfusion h
    | (injection h with hd; subst hd; subst_vars; exact ⟨by decide, by decide⟩)

theorem read2_pad2 {n : Nat} (r : List Char) (h : n < 100) : read2 (pad2 n ++ r) = some (n, r) := by
  have h1 : n / 10 % 10 < 10 := Nat.mod_lt _ (by omega)
  have h2 : n % 10 < 10 := Nat.mod_lt _ (by omega)
  simp only [pad2, List.cons_append, List.nil_append, read2,
    digitVal_digitChar h1, digitVal_digitChar h2]
  have : n / 10 % 10 * 10 + n % 10 = n := by omega
  rw [this]

theorem read4_pad4 {n : Nat} (r : List Char) (h : n < 10000) : read4 (pad4 n ++ r) = some (n, r) := by
  have h1 : n / 1000 % 10 < 10 := Nat.mod_lt _ (by omega)
  have h2 : n / 100 % 10 < 10 := Nat.mod_lt _ (by omega)
  have h3 : n / 10 % 10 < 10 := Nat.mod_lt _ (by omega)
  have h4 : n % 10 < 10 := Nat.mod_lt _ (by omega)
  simp only [pad4, List.cons_append, List.nil_append, read4,
    digitVal_digitChar h1, digitVal_digitChar h2, digitVal_digitChar h3, digitVal_digitChar h4]
  have : ((n / 1000 % 10 * 10 + n / 100 % 10) * 10 + n / 10 % 10) * 10 + n % 10 = n := by omega
  rw [this]

theorem read2_eq_some {l r : List Char} {n : Nat} (h : read2 l = some (n, r)) :
    n < 100 ∧ l = pad2 n ++ r := by
  match l with
  | [] => exact Option.noConfusion h
  | [c1] => exact Option.noConfusion h
  | c1 :: c2 :: rest =>
    simp only [read2] at h
    cases hd1 : digitVal c1 with
    | none => rw [hd1] at h; exact Option.noConfusion h
    | some d1 =>
      cases hd2 : digitVal c2 with
      | none => rw [hd1, hd2] at h; exact Option.noConfusion h
      | some d2 =>
        rw [hd1, hd2] at h
        injection h with h
        injection h with hn hr
        obtain ⟨hc1, hb1⟩ := digitVal_eq_some hd1
        obtain ⟨hc2, hb2⟩ := digitVal_eq_some hd2
        subst hn hr
        refine ⟨by omega, ?_⟩
        have e1 : (d1 * 10 + d2) / 10 % 10 = d1 := by omega
        have e2 : (d1 * 10 + d2) % 10 = d2 := by omega
        simp only [pad2, e1, e2, hc1, hc2, List.cons_append, List.nil_append]

theorem read4_eq_some {l r : List Char} {n : Nat} (h : read4 l = some (n, r)) :
    n < 10000 ∧ l = pad4 n ++ r := by
  match l with
  | [] => exact Option.noConfusion h
  | [c1] => exact Option.noConfusion h
  | [c1, c2] => exact Option.noConfusion h
  | [c1, c2, c3] => exact Option.noConfusion h
  | c1 :: c2 :: c3 :: c4 :: rest =>
    simp only [read4] at h
    cases hd1 : digitVal c1 with
    | none => rw [hd1] at h; exact Option.noConfusion h
    | some d1 =>
      cases hd2 : digitVal c2 with
      | none => rw [hd1, hd2] at h; exact Option.noConfusion h
      | some d2 =>
        cases hd3 : digitVal c3 with
        | none => rw [hd1, hd2, hd3] at h; exact Option.noConfusion h
        | some d3 =>
          cases hd4 : digitVal c4 with
          | none => rw [hd1, hd2, hd3, hd4] at h; exact Option.noConfusion h
          | some d4 =>
            rw [hd1, hd2, hd3, hd4] at h
            injection h with h
            injection h with hn hr
            obtain ⟨hc1, hb1⟩ := digitVal_eq_some hd1
            obtain ⟨hc2, hb2⟩ := digitVal_eq_some hd2
            obtain ⟨hc3, hb3⟩ := digitVal_eq_some hd3
            obtain ⟨hc4, hb4⟩ := digitVal_eq_some hd4
            subst hn hr
            refine ⟨by omega, ?_⟩
            have e1 : (((d1 * 10 + d2) * 10 + d3) * 10 + d4) / 1000 % 10 = d1 := by omega
            have e2 : (((d1 * 10 + d2) * 10 + d3) * 10 + d4) / 100 % 10 = d2 := by omega
            have e3 : (((d1 * 10 + d2) * 10 + d3) * 10 + d4) / 10 % 10 = d3 := by omega
            have e4 : (((d1 * 10 + d2) * 10 + d3) * 10 + d4) % 10 = d4 := by omega
            simp only [pad4, e1, e2, e3, e4, hc1, hc2, hc3, hc4,
              List.cons_append, List.nil_append]

theorem expectCh_cons (c : Char) (r : List Char) : expectCh c (c :: r) = some r := by
  simp [expectCh]

theorem expectCh_eq_some {c : Char} {l r : List Char} (h : expectCh c l = some r) :
    l = c :: r := by
  match l with
  | [] => exact Option.noConfusion h
  | c2 :: rest =>
    simp only [expectCh] at h
    split at h
    · rename_i he; injection h with h; subst h; subst he; rfl
    · exact Option.noConfusion h

theorem parseDateChars_fmtDate (t : DateTime) (r : List Char)
    (hy : t.year < 10000) (hm : t.month < 100) (hd : t.day < 100) :
    parseDateChars ((fmtDate t).data ++ r) = some (t.year, t.month, t.day, r) := by
  have heq : (fmtDate t).data ++ r =
      pad4 t.year ++ ('-' :: (pad2 t.month ++ ('-' :: (pad2 t.day ++ r)))) := by
    simp [fmtDate, List.append_assoc]
  rw [heq]
  unfold parseDateChars
  simp only [read4_pad4 _ hy, expectCh_cons, read2_pad2 _ hm, read2_pad2 _ hd]

theorem parseDateChars_eq_some {l : List Char} {y mo d : Nat} {r : List Char}
    (h : parseDateChars l = some (y, mo, d, r)) :
    y < 10000 ∧ mo < 100 ∧ d < 100 ∧
      l = pad4 y ++ '-' :: pad2 mo ++ '-' :: pad2 d ++ r := by
  unfold parseDateChars at h
  cases h4 : read4 l with
  | none => simp only [h4] at h; exact Option.noConfusion h
  | some p4 =>
    obtain ⟨y1, l1⟩ := p4
    simp only [h4] at h
    cases he1 : expectCh '-' l1 with
    | none => simp only [he1] at h; exact Option.noConfusion h
    | some l2 =>
      simp only [he1] at h
      cases h2 : read2 l2 with
      | none => simp only [h2] at h; exact Option.noConfusion h
      | some p2 =>
        obtain ⟨mo1, l3⟩ := p2
        simp only [h2] at h
        cases he2 : expectCh '-' l3 with
        | none => simp only [he2] at h; exact Option.noConfusion h
        | some l4 =>
          simp only [he2] at h
          cases h3 : read2 l4 with
          | none => simp only [h3] at h; exact Option.noConfusion h
          | some p3 =>
            obtain ⟨d1, l5⟩ := p3
            simp only [h3, Option.some.injEq, Prod.mk.injEq] at h
            obtain ⟨hy1, hmo1, hd1, hr⟩ := h
            subst hy1 hmo1 hd1 hr
            obtain ⟨hb4, hl4⟩ := read4_eq_some h4
            obtain ⟨hb2, hl2⟩ := read2_eq_some h2
            obtain ⟨hb3, hl3⟩ := read2_eq_some h3
            have hec1 := expectCh_eq_some he1
            have hec2 := expectCh_eq_some he2
            subst hl4 hec1 hl2 hec2 hl3
            exact ⟨hb4, hb2, hb3, by simp [List.append_assoc]⟩

theorem daysInMonth_le (y m : Nat) : daysInMonth y m ≤ 31 := by
  unfold daysInMonth
  split_ifs <;> omega

theorem parseDate_fmtDate (t : DateTime) (hv : dateValid t.year t.month t.day) :
    parseDate (fmtDate t) = some (DateTime.mk t.year t.month t.day 0 0 0) := by
  unfold parseDate
  have h0 : (fmtDate t).data = (fmtDate t).data ++ [] := by simp
  obtain ⟨hv1, hv2, hv3, hv4, hv5, hv6⟩ := hv
  have hdm := daysInMonth_le t.year t.month
  rw [h0, parseDateChars_fmtDate t [] (by omega) (by omega) (by omega)]
  simp only [Option.some_bind, finishDate]
  rw [if_pos (show dateValid t.year t.month t.day from ⟨hv1, hv2, hv3, hv4, hv5, hv6⟩)]

theorem parseDate_eq_some {s : String} {t : DateTime} (h : parseDate s = some t) :
    fmtDate t = s ∧ dateValid t.year t.month t.day ∧
      t.hour = 0 ∧ t.minute = 0 ∧ t.second = 0 := by
  unfold parseDate at h
  cases hp : parseDateChars s.data with
  | none => simp only [hp, Option.none_bind] at h; exact Option.noConfusion h
  | some q =>
    obtain ⟨y, mo, d, r⟩ := q
    simp only [hp, Option.some_bind] at h
    cases r with
    | cons c r2 => simp only [finishDate] at h; exact Option.noConfusion h
    | nil =>
      simp only [finishDate] at h
      split_ifs at h with hval
      · injection h with h
        subst h
        obtain ⟨-, -, -, hl⟩ := parseDateChars_eq_some hp
        refine ⟨?_, hval, rfl, rfl, rfl⟩
        cases s with
        | mk data =>
          simp only [fmtDate]
          simp only at hl
          rw [hl]
          simp

theorem parseDateTime_fmt (t : DateTime) (hv : t.valid) :
    parseDateTime (fmtDate t ++ " " ++ fmtTime t) = some t := by
  obtain ⟨⟨hv1, hv2, hv3, hv4, hv5, hv6⟩, hv7, hv8, hv9⟩ := hv
  have hdm := daysInMonth_le t.year t.month
  have hdata : (fmtDate t ++ " " ++ fmtTime t).data =
      (fmtDate t).data ++ (' ' :: (fmtTime t).data) := by
    show ((fmtDate t).data ++ (" " : String).data) ++ (fmtTime t).data = _
    simp
  unfold parseDateTime
  rw [hdata, parseDateChars_fmtDate t _ (by omega) (by omega) (by omega)]
  have htime : (fmtTime t).data =
      pad2 t.hour ++ (':' :: (pad2 t.minute ++ (':' :: (pad2 t.second ++ [])))) := by
    simp [fmtTime, List.append_assoc]
  simp only [expectCh_cons, htime, read2_pad2 _ (show t.hour < 100 by omega),
    read2_pad2 _ (show t.minute < 100 by omega), read2_pad2 _ (show t.second < 100 by omega)]
  rw [if_pos (show dateValid t.year t.month t.day ∧ timeValid t.hour t.minute t.second from
    ⟨⟨hv1, hv2, hv3, hv4, hv5, hv6⟩, hv7, hv8, hv9⟩)]

theorem fmtDate_ne_unknown (t : DateTime) : fmtDate t ≠ "Unknown" := by
  intro h
  have hl := congrArg (fun s => s.data.length) h
  simp [fmtDate, pad4, pad2] at hl

/-- strftime with %Y-%m-%d reads only the date fields. -/
theorem fmtDate_eq_of_date_eq {t1 t2 : DateTime} (hy : t1.year = t2.year)
    (hm : t1.month = t2.month) (hd : t1.day = t2.day) : fmtDate t1 = fmtDate t2 := by
  simp [fmtDate, hy, hm, hd]

/-- Model of min over a nonempty collection of datetime values, as used
for the first visit date. -/
def minDT : List DateTime → Option DateTime
  | [] => none
  | t :: ts =>
    match minDT ts with
    | none => some t
    | some m => some (if DateTime.ltb m t then m else t)

theorem minDT_mem {l : List DateTime} {m : DateTime} (h : minDT l = some m) : m ∈ l := by
  induction l generalizing m with
  | nil => exact Option.noConfusion h
  | cons t ts ih =>
    unfold minDT at h
    cases hm : minDT ts with
    | none =>
      rw [hm] at h
      injection h with h
      subst h
      exact List.mem_cons_self t ts
    | some m2 =>
      rw [hm] at h
      injection h with h
      subst h
      split_ifs with hlt
      · exact List.mem_cons_of_mem _ (ih hm)
      · exact List.mem_cons_self t ts

theorem DateTime.ltb_asymm_trans {a b c : DateTime}
    (h1 : ¬ a.ltb b = true) (h2 : ¬ b.ltb c = true) : ¬ a.ltb c = true := by
  rw [DateTime.ltb_iff] at h1 h2 ⊢
  omega

theorem minDT_eq_none {l : List DateTime} (h : minDT l = none) : l = [] := by
  cases l with
  | nil => rfl
  | cons t ts =>
    unfold minDT at h
    cases hm : minDT ts <;> rw [hm] at h <;> exact Option.noConfusion h

theorem minDT_min {l : List DateTime} {m : DateTime} (h : minDT l = some m) :
    ∀ x ∈ l, ¬ x.ltb m = true := by
  induction l generalizing m with
  | nil => exact Option.noConfusion h
  | cons t ts ih =>
    unfold minDT at h
    cases hm : minDT ts with
    | none =>
      rw [hm] at h
      injection h with h
      subst h
      have hts : ts = [] := minDT_eq_none hm
      subst hts
      intro x hx
      have hx2 : x = t := by simpa using hx
      subst hx2
      rw [DateTime.ltb_iff]
      omega
    | some m2 =>
      rw [hm] at h
      injection h with h
      subst h
      intro x hx
      cases List.mem_cons.mp hx with
      | inl he =>
        subst he
        split_ifs with hlt
        · intro hc
          rw [DateTime.ltb_iff] at hc hlt
          omega
        · rw [DateTime.ltb_iff]
          omega
      | inr hmem =>
        split_ifs with hlt
        · exact ih hm x hmem
        · exact DateTime.ltb_asymm_trans (ih hm x hmem) hlt

theorem minDT_isSome {l : List DateTime} (h : l ≠ []) : (minDT l).isSome = true := by
  cases l with
  | nil => exact absurd rfl h
  | cons t ts =>
    unfold minDT
    cases minDT ts <;> simp

/-! ## Model of the geocoding step (get_location, src/main.py lines 53-69) -/

/-- Stand-in for a GPS coordinate pair.  The program manipulates float
pairs; every claim treated here is independent of float arithmetic, so
an abstract discrete pair type suffices. -/
abbrev Coord := Int × Int

/-- Stand-in for a quantized cache key (the value of round_coordinates). -/
abbrev QKey := Int × Int

/-- The components dictionary returned by the geocoder, projected to the
two keys the program reads.  A missing key is modelled by none; a key
present with an empty string is some of the empty string. -/
structure Place where
  city : Option String
  country : Option String
  deriving DecidableEq, Repr

/-- Outcome of one reverse_geocode attempt: a non-empty result list
whose first element carries the given components, an empty (falsy)
result list, or a raised exception with the given message text. -/
inductive GeoAttempt where
  | ok (p : Place)
  | empty
  | err (msg : String)
  deriving DecidableEq, Repr

/-- Result of get_location together with the state it mutates: the
geocoder_timeout_count counter, the error_messages list, and the total
seconds passed to time.sleep. -/
structure GeoOut where
  res : Option Place
  timeoutCount : Nat
  errors : List String
  sleeps : Nat
  deriving DecidableEq, Repr

/-- The message appended for a failed attempt, from the f-string in
get_location. -/
def attemptErrMsg (c : Coord) (attempt retries : Nat) (e : String) : String :=
  "Error for coordinates (" ++ toString c.1 ++ ", " ++ toString c.2 ++ ") on attempt " ++
    toString (attempt + 1) ++ "/" ++ toString retries ++ ": " ++ e

/-- The terminal message appended after the loop exhausts all attempts. -/
def finalErrMsg (c : Coord) : String :=
  "Geocoder failed after multiple attempts for coordinates (" ++ toString c.1 ++ ", " ++
    toString c.2 ++ ")."

/-- The retry loop of get_location.  attempt is the current loop index,
fuel the number of remaining iterations of range(retries).  A raised
exception increments the counter, appends a message and sleeps delay
seconds; a non-empty result returns immediately; an empty result falls
through to the next attempt without recording anything. -/
def getLocationLoop (c : Coord) (oracle : Nat → GeoAttempt) (retries delay : Nat) :
    Nat → Nat → Nat → List String → Nat → GeoOut
  | _, 0, tc, errs, sl => GeoOut.mk none tc (errs ++ [finalErrMsg c]) sl
  | attempt, fuel + 1, tc, errs, sl =>
    match oracle attempt with
    | GeoAttempt.ok p => GeoOut.mk (some p) tc errs sl
    | GeoAttempt.empty => getLocationLoop c oracle retries delay (attempt + 1) fuel tc errs sl
    | GeoAttempt.err e =>
        getLocationLoop c oracle retries delay (attempt + 1) fuel (tc + 1)
          (errs ++ [attemptErrMsg c attempt retries e]) (sl + delay)

/-- Model of get_location: the oracle gives the outcome of the i-th
reverse_geocode attempt for this call. -/
def get_location (c : Coord) (oracle : Nat → GeoAttempt) (tc : Nat) (errs : List String)
    (sl : Nat) (retries delay : Nat) : GeoOut :=
  getLocationLoop c oracle retries delay 0 retries tc errs sl

/-! ## Model of the per-folder aggregation (src/main.py lines 293-327) -/

/-- One entry of results[folder_name]: the dictionary built at
src/main.py lines 320-327. -/
structure VisitEntry where
  filename : String
  date : String
  time : String
  city : String
  country : String
  coordinates : Coord
  deriving DecidableEq, Repr

/-- The dictionary literal appended (or written by update, which
replaces every field) for a processed image. -/
def mkEntry (fn dateStr timeStr city country : String) (c : Coord) : VisitEntry :=
  VisitEntry.mk fn dateStr timeStr city country c

/-- The replacement test at src/main.py lines 309-310: the new image
must carry a timestamp, the existing entry must have a known date, and
the new timestamp must be strictly earlier than the parse of the
existing date and time strings.  The program would raise if those
stored strings did not parse; entries only ever hold strftime output,
so that branch is modelled as no replacement. -/
def shouldReplace (e : VisitEntry) (dt : Option DateTime) : Bool :=
  match dt with
  | none => false
  | some t =>
    if e.date ≠ "Unknown" then
      match parseDateTime (e.date ++ " " ++ e.time) with
      | some et => DateTime.ltb t et
      | none => false
    else false

/-- Processing of one resolvable image against one folder list:
find the first entry with the same (date, city); replace it in place
when shouldReplace holds, leave it when not, append a new entry when no
entry matches (src/main.py lines 305-327). -/
def addImage (fn dateStr timeStr city country : String) (dt : Option DateTime) (c : Coord) :
    List VisitEntry → List VisitEntry
  | [] => [mkEntry fn dateStr timeStr city country c]
  | e :: rest =>
    if e.date = dateStr ∧ e.city = city then
      (if shouldReplace e dt then mkEntry fn dateStr timeStr city country c else e) :: rest
    else
      e :: addImage fn dateStr timeStr city country dt c rest

/-- Lookup in the results dictionary (folder name to entry list). -/
def lookupFolder : List (String × List VisitEntry) → String → Option (List VisitEntry)
  | [], _ => none
  | (n, es) :: rest, f => if n = f then some es else lookupFolder rest f

/-- results[folder] mutation: apply g to the existing list, inserting
the folder with an empty list first when absent, as lines 302-303 do. -/
def updateFolder (rs : List (String × List VisitEntry)) (f : String)
    (g : List VisitEntry → List VisitEntry) : List (String × List VisitEntry) :=
  match rs with
  | [] => [(f, g [])]
  | (n, es) :: rest => if n = f then (n, g es) :: rest else (n, es) :: updateFolder rest f g

/-- Lookup in the location_cache dictionary. -/
def cacheLookup : List (QKey × Place) → QKey → Option Place
  | [], _ => none
  | (k, v) :: rest, q => if k = q then some v else cacheLookup rest q

/-! ## Model of the scan loop state (src/main.py lines 167-357) -/

/-- One input to the scan loop: the per-file facts extracted by the
external EXIF reader for one discovered image. -/
structure ImageRecord where
  filename : String
  folder : String
  gps : Option Coord
  dateTaken : Option DateTime
  deriving DecidableEq, Repr

/-- The run-scoped mutable state of scan_images: the results dictionary,
the location cache, geocoder_count, geocoder_timeout_count, the error
message list and the accumulated sleep seconds. -/
structure ScanState where
  results : List (String × List VisitEntry)
  cache : List (QKey × Place)
  resolverCalls : Nat
  timeoutCount : Nat
  errors : List String
  sleeps : Nat
  deriving DecidableEq, Repr

/-- The initial state of a run of scan_images. -/
def initState : ScanState := ScanState.mk [] [] 0 0 [] 0

/-- Truthiness of location_info.get applied to an optional string:
Python treats a missing key and an empty string as falsy. -/
def optTruthy : Option String → Bool
  | none => false
  | some s => !s.isEmpty

/-- The cache-or-resolve step at src/main.py lines 278-287: quantize the
coordinates, return the cached place on a hit; on a miss call
get_location with the original coordinates (defaults retries 3 and
delay 1), store the result in the cache only when it is truthy, and
count the geocoder call. -/
def resolveGps (quantize : Coord → QKey) (oracle : Coord → Nat → GeoAttempt)
    (st : ScanState) (c : Coord) : Option Place × ScanState :=
  match cacheLookup st.cache (quantize c) with
  | some v => (some v, st)
  | none =>
    let out := get_location c (oracle c) st.timeoutCount st.errors st.sleeps 3 1
    let cache2 :=
      match out.res with
      | some p => st.cache ++ [(quantize c, p)]
      | none => st.cache
    (out.res,
      ScanState.mk st.results cache2 (st.resolverCalls + 1) out.timeoutCount out.errors out.sleeps)

/-- Processing of one image through the loop body of scan_images
(lines 277-327): resolve the coordinates when present, then aggregate
when the resolved place has a truthy city or country. -/
def processRecord (quantize : Coord → QKey) (oracle : Coord → Nat → GeoAttempt)
    (st : ScanState) (r : ImageRecord) : ScanState :=
  match r.gps with
  | none => st
  | some c =>
    let step := resolveGps quantize oracle st c
    match step.1 with
    | none => step.2
    | some p =>
      if optTruthy p.city || optTruthy p.country then
        let dateStr := match r.dateTaken with | some t => fmtDate t | none => "Unknown"
        let timeStr := match r.dateTaken with | some t => fmtTime t | none => "Unknown"
        let city := p.city.getD "Unknown"
        let country := p.country.getD "Unknown"
        ScanState.mk
          (updateFolder step.2.results r.folder
            (addImage r.filename dateStr timeStr city country r.dateTaken c))
          step.2.cache step.2.resolverCalls step.2.timeoutCount step.2.errors step.2.sleeps
      else step.2

/-- The scan loop over the discovered images, in discovery order. -/
def scanAux (quantize : Coord → QKey) (oracle : Coord → Nat → GeoAttempt) :
    ScanState → List ImageRecord → ScanState
  | st, [] => st
  | st, r :: rest => scanAux quantize oracle (processRecord quantize oracle st r) rest

/-- The sort key used at src/main.py line 331: the (date, time) string
pair compared lexicographically, as Python tuple comparison does. -/
def entryLE (a b : VisitEntry) : Prop :=
  a.date < b.date ∨ (a.date = b.date ∧ a.time ≤ b.time)

instance : DecidableRel entryLE := fun a b =>
  decidable_of_iff
    (a.date.toList < b.date.toList ∨ (a.date = b.date ∧ a.time.toList ≤ b.time.toList))
    (by unfold entryLE; rw [String.lt_iff_toList_lt, String.le_iff_toList_le])

/-- The finalization at src/main.py lines 329-331: sort every folder
list by (date, time). -/
def finalizeResults (rs : List (String × List VisitEntry)) : List (String × List VisitEntry) :=
  rs.map (fun fe => (fe.1, List.insertionSort entryLE fe.2))

/-- Model of scan_images: run the loop from the empty state, then sort
each folder.  The console progress display, the EXIF reading (already
folded into ImageRecord) and the wall-clock statistics are outside the
model. -/
def scan_images (quantize : Coord → QKey) (oracle : Coord → Nat → GeoAttempt)
    (records : List ImageRecord) : ScanState :=
  let st := scanAux quantize oracle initState records
  ScanState.mk (finalizeResults st.results) st.cache st.resolverCalls st.timeoutCount
    st.errors st.sleeps

/-! ## Model of the summary (count_days_in_cities and generate_summary,
src/main.py lines 94-151) -/

/-- One element of the folders array consumed by generate_summary. -/
structure FolderData where
  name : String
  images : List VisitEntry
  deriving DecidableEq, Repr

/-- One element of the cities array of the summary output. -/
structure CityCount where
  name : String
  visits : Nat
  deriving DecidableEq, Repr

/-- One element of the countries array of the summary output. -/
structure CountrySummary where
  name : String
  first_visit_date : String
  cities : List CityCount
  deriving DecidableEq, Repr

/-- The filter at src/main.py line 104: an image participates in the
summary only when city, country and date are all known. -/
def qualifies (e : VisitEntry) : Bool :=
  e.city ≠ "Unknown" && e.country ≠ "Unknown" && e.date ≠ "Unknown"

/-- All images of all folders, in iteration order. -/
def allImages : List FolderData → List VisitEntry
  | [] => []
  | f :: fs => f.images ++ allImages fs

/-- The images that pass the filter of line 104. -/
def qualifyingEntries (data : List FolderData) : List VisitEntry :=
  (allImages data).filter qualifies

/-- The countries that appear in country_city_days, in first-appearance
order (dict iteration order is irrelevant to the final sorted output). -/
def countriesOf (data : List FolderData) : List String :=
  ((qualifyingEntries data).map VisitEntry.country).dedup

/-- The cities recorded under one country. -/
def citiesOfCountry (data : List FolderData) (co : String) : List String :=
  (((qualifyingEntries data).filter (fun e => e.country = co)).map VisitEntry.city).dedup

/-- The date set country_city_days[co][ci]: distinct dates on which the
city appears for that country. -/
def cityDates (data : List FolderData) (co ci : String) : List String :=
  (((qualifyingEntries data).filter (fun e => e.country = co ∧ e.city = ci)).map
    VisitEntry.date).dedup

/-- Every qualifying date recorded under a country (the flattening of
cities.values() at src/main.py line 112). -/
def countryDates (data : List FolderData) (co : String) : List String :=
  ((qualifyingEntries data).filter (fun e => e.country = co)).map VisitEntry.date

/-- first_visit_date of a country: the minimum of the parsed dates,
rendered back by strftime.  Dates the program could not parse would
raise in Python; they are dropped here and the empty-country case
(unreachable for countries in the dict) renders as the empty string. -/
def firstVisitDate (data : List FolderData) (co : String) : String :=
  match minDT ((countryDates data co).filterMap parseDate) with
  | some m => fmtDate m
  | none => ""

/-- The sort key for cities at src/main.py line 125: visits descending,
then name ascending. -/
def cityOrd (a b : CityCount) : Prop :=
  b.visits < a.visits ∨ (a.visits = b.visits ∧ a.name ≤ b.name)

instance : DecidableRel cityOrd := fun a b =>
  decidable_of_iff (b.visits < a.visits ∨ (a.visits = b.visits ∧ a.name.toList ≤ b.name.toList))
    (by unfold cityOrd; rw [String.le_iff_toList_le])

/-- The sort key for countries at src/main.py line 144: the
first_visit_date string ascending, then name ascending. -/
def countryOrd (a b : CountrySummary) : Prop :=
  a.first_visit_date < b.first_visit_date ∨
    (a.first_visit_date = b.first_visit_date ∧ a.name ≤ b.name)

instance : DecidableRel countryOrd := fun a b =>
  decidable_of_iff
    (a.first_visit_date.toList < b.first_visit_date.toList ∨
      (a.first_visit_date = b.first_visit_date ∧ a.name.toList ≤ b.name.toList))
    (by unfold countryOrd; rw [String.lt_iff_toList_lt, String.le_iff_toList_le])

/-- Model of generate_summary composed with count_days_in_cities:
group the qualifying images into country and city date sets, count the
distinct dates per city, compute the first visit date per country, sort
cities by (-visits, name) and countries by (first_visit_date, name). -/
def generate_summary (data : List FolderData) : List CountrySummary :=
  List.insertionSort countryOrd
    ((countriesOf data).map (fun co =>
      CountrySummary.mk co (firstVisitDate data co)
        (List.insertionSort cityOrd
          ((citiesOfCountry data co).map (fun ci =>
            CityCount.mk ci (cityDates data co ci).length)))))

/-! ## Retry wrapper behaviour (claim C5) -/

theorem getLocationLoop_all_err (c : Coord) (oracle : Nat → GeoAttempt) (retries delay : Nat)
    (msgs : Nat → String) :
    ∀ fuel attempt tc errs sl,
      (∀ i, attempt ≤ i → i < attempt + fuel → oracle i = GeoAttempt.err (msgs i)) →
      getLocationLoop c oracle retries delay attempt fuel tc errs sl =
        GeoOut.mk none (tc + fuel)
          (errs ++ (List.range fuel).map
            (fun j => attemptErrMsg c (attempt + j) retries (msgs (attempt + j))) ++
            [finalErrMsg c])
          (sl + fuel * delay) := by
  intro fuel
  induction fuel with
  | zero =>
    intro attempt tc errs sl _
    simp [getLocationLoop]
  | succ fuel ih =>
    intro attempt tc errs sl h
    have h0 : oracle attempt = GeoAttempt.err (msgs attempt) := h attempt le_rfl (by omega)
    unfold getLocationLoop
    simp only [h0]
    rw [ih (attempt + 1) (tc + 1) (errs ++ [attemptErrMsg c attempt retries (msgs attempt)])
      (sl + delay) (fun i hi1 hi2 => h i (by omega) (by omega))]
    simp only [GeoOut.mk.injEq]
    refine ⟨trivial, by omega, ?_, by ring⟩
    rw [List.range_succ_eq_map]
    simp [List.append_assoc, Function.comp]
    intro a _
    have ha : attempt + 1 + a = attempt + (a + 1) := by omega
    rw [ha]

theorem getLocationLoop_first_ok (c : Coord) (oracle : Nat → GeoAttempt) (retries delay : Nat)
    (msgs : Nat → String) (p : Place) :
    ∀ fuel j attempt tc errs sl, j < fuel →
      (∀ i, attempt ≤ i → i < attempt + j → oracle i = GeoAttempt.err (msgs i)) →
      oracle (attempt + j) = GeoAttempt.ok p →
      getLocationLoop c oracle retries delay attempt fuel tc errs sl =
        GeoOut.mk (some p) (tc + j)
          (errs ++ (List.range j).map
            (fun i => attemptErrMsg c (attempt + i) retries (msgs (attempt + i))))
          (sl + j * delay) := by
  intro fuel
  induction fuel with
  | zero => intro j attempt tc errs sl hj; omega
  | succ fuel ih =>
    intro j attempt tc errs sl hj herr hok
    cases j with
    | zero =>
      unfold getLocationLoop
      simp only [Nat.add_zero] at hok
      simp [hok]
    | succ j =>
      have h0 : oracle attempt = GeoAttempt.err (msgs attempt) := herr attempt le_rfl (by omega)
      unfold getLocationLoop
      simp only [h0]
      rw [ih j (attempt + 1) (tc + 1) (errs ++ [attemptErrMsg c attempt retries (msgs attempt)])
        (sl + delay) (by omega) (fun i hi1 hi2 => herr i (by omega) (by omega))
        (by rw [show attempt + 1 + j = attempt + (j + 1) by omega]; exact hok)]
      simp only [GeoOut.mk.injEq]
      refine ⟨trivial, by omega, ?_, by ring⟩
      rw [List.range_succ_eq_map]
      simp [List.append_assoc, Function.comp]
      intro a _
      have ha : attempt + 1 + a = attempt + (a + 1) := by omega
      rw [ha]

/-- Claim C5: for every coordinate pair, the retry wrapper attempts the
external call up to max_retries times; every attempt that raises appends
a formatted error message, increments the error/timeout counter and
sleeps the fixed delay before retrying; when every attempt fails it
appends a terminal failure message and returns none (a total function,
so a resolver failure never aborts the pipeline), and when an attempt
succeeds it returns the components at once with no further attempts. -/
theorem get_location_retry_policy (c : Coord) (oracle : Nat → GeoAttempt)
    (tc : Nat) (errs : List String) (sl : Nat) (retries delay : Nat) (msgs : Nat → String) :
    ((∀ i, i < retries → oracle i = GeoAttempt.err (msgs i)) →
      get_location c oracle tc errs sl retries delay =
        GeoOut.mk none (tc + retries)
          (errs ++ (List.range retries).map (fun i => attemptErrMsg c i retries (msgs i)) ++
            [finalErrMsg c])
          (sl + retries * delay))
    ∧ (∀ j p, j < retries → (∀ i, i < j → oracle i = GeoAttempt.err (msgs i)) →
        oracle j = GeoAttempt.ok p →
        get_location c oracle tc errs sl retries delay =
          GeoOut.mk (some p) (tc + j)
            (errs ++ (List.range j).map (fun i => attemptErrMsg c i retries (msgs i)))
            (sl + j * delay)) := by
  constructor
  · intro h
    unfold get_location
    rw [getLocationLoop_all_err c oracle retries delay msgs retries 0 tc errs sl
      (fun i _ hi2 => h i (by omega))]
    simp
  · intro j p hj herr hok
    unfold get_location
    rw [getLocationLoop_first_ok c oracle retries delay msgs p retries j 0 tc errs sl hj
      (fun i _ hi2 => herr i (by omega)) (by simpa using hok)]
    simp

theorem get_location_retry_policy_witness :
    get_location ((1 : Int), (2 : Int)) (fun _ => GeoAttempt.err "timed out") 0 [] 0 3 1 =
      GeoOut.mk none (0 + 3)
        ([] ++ (List.range 3).map
          (fun i => attemptErrMsg ((1 : Int), (2 : Int)) i 3 ((fun _ => "timed out") i)) ++
          [finalErrMsg ((1 : Int), (2 : Int))])
        (0 + 3 * 1) :=
  (get_location_retry_policy ((1 : Int), (2 : Int)) (fun _ => GeoAttempt.err "timed out")
    0 [] 0 3 1 (fun _ => "timed out")).1 (fun _ _ => rfl)

/-! ## Earliest-wins deduplication (claim C2) -/

/-- Claim C2: two images of one folder resolving to the same (date,
city) key, both carrying a (valid) timestamp on the same calendar day,
leave exactly one VisitEntry, and the later-processed image replaces the
existing entry exactly when its timestamp is strictly earlier; otherwise
the existing entry survives unchanged. -/
theorem dedup_earliest_wins (fn1 fn2 city co1 co2 : String) (c1 c2 : Coord)
    (t1 t2 : DateTime) (hv1 : t1.valid) (hv2 : t2.valid)
    (hy : t1.year = t2.year) (hm : t1.month = t2.month) (hd : t1.day = t2.day) :
    addImage fn2 (fmtDate t2) (fmtTime t2) city co2 (some t2) c2
        (addImage fn1 (fmtDate t1) (fmtTime t1) city co1 (some t1) c1 []) =
      [if DateTime.ltb t2 t1 then mkEntry fn2 (fmtDate t2) (fmtTime t2) city co2 c2
       else mkEntry fn1 (fmtDate t1) (fmtTime t1) city co1 c1] := by
  have hfd : fmtDate t1 = fmtDate t2 := fmtDate_eq_of_date_eq hy hm hd
  have hinner : addImage fn1 (fmtDate t1) (fmtTime t1) city co1 (some t1) c1 [] =
      [mkEntry fn1 (fmtDate t1) (fmtTime t1) city co1 c1] := rfl
  rw [hinner]
  unfold addImage
  rw [if_pos (show (mkEntry fn1 (fmtDate t1) (fmtTime t1) city co1 c1).date = fmtDate t2 ∧
      (mkEntry fn1 (fmtDate t1) (fmtTime t1) city co1 c1).city = city from ⟨hfd, rfl⟩)]
  have hrep : shouldReplace (mkEntry fn1 (fmtDate t1) (fmtTime t1) city co1 c1) (some t2) =
      DateTime.ltb t2 t1 := by
    simp only [shouldReplace]
    rw [if_pos (show (mkEntry fn1 (fmtDate t1) (fmtTime t1) city co1 c1).date ≠ "Unknown" from
      fmtDate_ne_unknown t1)]
    have : (mkEntry fn1 (fmtDate t1) (fmtTime t1) city co1 c1).date ++ " " ++
        (mkEntry fn1 (fmtDate t1) (fmtTime t1) city co1 c1).time =
        fmtDate t1 ++ " " ++ fmtTime t1 := rfl
    rw [this, parseDateTime_fmt t1 hv1]
  rw [hrep]

theorem dedup_earliest_wins_witness :
    addImage "b.jpg" (fmtDate (DateTime.mk 2024 1 1 8 0 0)) (fmtTime (DateTime.mk 2024 1 1 8 0 0))
        "Paris" "France" (some (DateTime.mk 2024 1 1 8 0 0)) ((3 : Int), (4 : Int))
        (addImage "a.jpg" (fmtDate (DateTime.mk 2024 1 1 14 0 0))
          (fmtTime (DateTime.mk 2024 1 1 14 0 0)) "Paris" "France"
          (some (DateTime.mk 2024 1 1 14 0 0)) ((1 : Int), (2 : Int)) []) =
      [if DateTime.ltb (DateTime.mk 2024 1 1 8 0 0) (DateTime.mk 2024 1 1 14 0 0) then
        mkEntry "b.jpg" (fmtDate (DateTime.mk 2024 1 1 8 0 0))
          (fmtTime (DateTime.mk 2024 1 1 8 0 0)) "Paris" "France" ((3 : Int), (4 : Int))
       else
        mkEntry "a.jpg" (fmtDate (DateTime.mk 2024 1 1 14 0 0))
          (fmtTime (DateTime.mk 2024 1 1 14 0 0)) "Paris" "France" ((1 : Int), (2 : Int))] :=
  dedup_earliest_wins "a.jpg" "b.jpg" "Paris" "France" "France" ((1 : Int), (2 : Int))
    ((3 : Int), (4 : Int)) (DateTime.mk 2024 1 1 14 0 0) (DateTime.mk 2024 1 1 8 0 0)
    (by decide) (by decide) rfl rfl rfl

/-! ## Unknown-safe deduplication (claims C7 and C8) -/

/-- The membership test behind the next(...) lookup at line 306: does
some entry of the folder already carry this (date, city) pair. -/
def containsKey : List VisitEntry → String → String → Bool
  | [], _, _ => false
  | e :: rest, d, ci =>
    if e.date = d ∧ e.city = ci then true else containsKey rest d ci

theorem addImage_none_timestamp (fn dateStr timeStr city country : String) (c : Coord) :
    ∀ es : List VisitEntry,
      addImage fn dateStr timeStr city country none c es =
        if containsKey es dateStr city then es
        else es ++ [mkEntry fn dateStr timeStr city country c] := by
  intro es
  induction es with
  | nil => simp [addImage, containsKey]
  | cons e rest ih =>
    unfold addImage containsKey
    by_cases hk : e.date = dateStr ∧ e.city = city
    · rw [if_pos hk, if_pos hk]
      have hrf : shouldReplace e none = false := rfl
      rw [hrf]
      simp
    · rw [if_neg hk, if_neg hk, ih]
      split_ifs <;> rfl

theorem addImage_keeps_unknown (fn dateStr timeStr city country : String)
    (dt : Option DateTime) (c : Coord) :
    ∀ (es : List VisitEntry) (i : Nat) (e : VisitEntry),
      es[i]? = some e → e.date = "Unknown" →
      (addImage fn dateStr timeStr city country dt c es)[i]? = some e := by
  intro es
  induction es with
  | nil => intro i e h _; simp at h
  | cons e0 rest ih =>
    intro i e h hunk
    cases i with
    | zero =>
      simp only [List.getElem?_cons_zero, Option.some.injEq] at h
      rw [← h] at hunk ⊢
      unfold addImage
      by_cases hk : e0.date = dateStr ∧ e0.city = city
      · rw [if_pos hk]
        have hrep : shouldReplace e0 dt = false := by
          cases dt with
          | none => rfl
          | some t =>
            simp only [shouldReplace]
            rw [if_neg (by simp [hunk])]
        rw [hrep]
        simp
      · rw [if_neg hk]
        simp
    | succ i =>
      simp only [List.getElem?_cons_succ] at h
      unfold addImage
      by_cases hk : e0.date = dateStr ∧ e0.city = city
      · rw [if_pos hk]
        simpa using h
      · rw [if_neg hk]
        simpa using ih i e h hunk

/-- Claim C7: an image without a timestamp never replaces any existing
entry (in particular never a dated one: the folder list is unchanged
except possibly for an appended new entry), and an entry whose date is
the Unknown label survives the processing of every later image
unchanged and in place. -/
theorem unknown_timestamp_dedup (fn dateStr timeStr city country : String)
    (dt : Option DateTime) (c : Coord) (es : List VisitEntry) :
    (addImage fn dateStr timeStr city country none c es =
      if containsKey es dateStr city then es
      else es ++ [mkEntry fn dateStr timeStr city country c])
    ∧ (∀ (i : Nat) (e : VisitEntry), es[i]? = some e → e.date = "Unknown" →
        (addImage fn dateStr timeStr city country dt c es)[i]? = some e) :=
  ⟨addImage_none_timestamp fn dateStr timeStr city country c es,
   fun i e h hunk => addImage_keeps_unknown fn dateStr timeStr city country dt c es i e h hunk⟩

theorem unknown_timestamp_dedup_witness :
    (addImage "b.jpg" "Unknown" "Unknown" "Paris" "France" none ((1 : Int), (2 : Int))
        [mkEntry "a.jpg" "2024-01-01" "08:00:00" "Paris" "France" ((1 : Int), (2 : Int)),
         mkEntry "c.jpg" "Unknown" "Unknown" "Lyon" "France" ((1 : Int), (2 : Int))] =
      if containsKey
          [mkEntry "a.jpg" "2024-01-01" "08:00:00" "Paris" "France" ((1 : Int), (2 : Int)),
           mkEntry "c.jpg" "Unknown" "Unknown" "Lyon" "France" ((1 : Int), (2 : Int))]
          "Unknown" "Paris" then
        [mkEntry "a.jpg" "2024-01-01" "08:00:00" "Paris" "France" ((1 : Int), (2 : Int)),
         mkEntry "c.jpg" "Unknown" "Unknown" "Lyon" "France" ((1 : Int), (2 : Int))]
      else
        [mkEntry "a.jpg" "2024-01-01" "08:00:00" "Paris" "France" ((1 : Int), (2 : Int)),
         mkEntry "c.jpg" "Unknown" "Unknown" "Lyon" "France" ((1 : Int), (2 : Int)),
         mkEntry "b.jpg" "Unknown" "Unknown" "Paris" "France" ((1 : Int), (2 : Int))])
    ∧ (addImage "d.jpg" "Unknown" "Unknown" "Lyon" "France"
          (some (DateTime.mk 2024 1 2 9 0 0)) ((5 : Int), (6 : Int))
          [mkEntry "a.jpg" "2024-01-01" "08:00:00" "Paris" "France" ((1 : Int), (2 : Int)),
           mkEntry "c.jpg" "Unknown" "Unknown" "Lyon" "France" ((1 : Int), (2 : Int))])[1]? =
        some (mkEntry "c.jpg" "Unknown" "Unknown" "Lyon" "France" ((1 : Int), (2 : Int))) :=
  ⟨(unknown_timestamp_dedup "b.jpg" "Unknown" "Unknown" "Paris" "France" none
      ((1 : Int), (2 : Int))
      [mkEntry "a.jpg" "2024-01-01" "08:00:00" "Paris" "France" ((1 : Int), (2 : Int)),
       mkEntry "c.jpg" "Unknown" "Unknown" "Lyon" "France" ((1 : Int), (2 : Int))]).1,
   (unknown_timestamp_dedup "d.jpg" "Unknown" "Unknown" "Lyon" "France"
      (some (DateTime.mk 2024 1 2 9 0 0)) ((5 : Int), (6 : Int))
      [mkEntry "a.jpg" "2024-01-01" "08:00:00" "Paris" "France" ((1 : Int), (2 : Int)),
       mkEntry "c.jpg" "Unknown" "Unknown" "Lyon" "France" ((1 : Int), (2 : Int))]).2 1
    (mkEntry "c.jpg" "Unknown" "Unknown" "Lyon" "France" ((1 : Int), (2 : Int))) (by decide) rfl⟩

/-- The number of entries of a folder carrying a given (date, city)
pair. -/
def countKey (es : List VisitEntry) (d ci : String) : Nat :=
  (es.filter (fun e => e.date = d ∧ e.city = ci)).length

theorem countKey_addImage (fn dateStr timeStr city country : String) (dt : Option DateTime)
    (c : Coord) (es : List VisitEntry) :
    countKey (addImage fn dateStr timeStr city country dt c es) dateStr city =
      if countKey es dateStr city = 0 then 1 else countKey es dateStr city := by
  induction es with
  | nil => simp [addImage, countKey, mkEntry]
  | cons e rest ih =>
    unfold addImage
    by_cases hk : e.date = dateStr ∧ e.city = city
    · rw [if_pos hk]
      have hcons : countKey (e :: rest) dateStr city = countKey rest dateStr city + 1 := by
        simp [countKey, List.filter_cons, hk.1, hk.2]
      have hhead : countKey
          ((if shouldReplace e dt then mkEntry fn dateStr timeStr city country c else e) :: rest)
          dateStr city = countKey rest dateStr city + 1 := by
        split_ifs with hr
        · simp [countKey, List.filter_cons, mkEntry]
        · simp [countKey, List.filter_cons, hk.1, hk.2]
      rw [hhead, hcons, if_neg (by omega)]
    · rw [if_neg hk]
      have hcons : countKey (e :: rest) dateStr city = countKey rest dateStr city := by
        simp [countKey, List.filter_cons, hk]
      have hcons2 : countKey (e :: addImage fn dateStr timeStr city country dt c rest)
          dateStr city = countKey (addImage fn dateStr timeStr city country dt c rest)
          dateStr city := by
        simp [countKey, List.filter_cons, hk]
      rw [hcons2, hcons, ih]

/-- Claim C8: a resolved place with a truthy city or country but a
missing component stores the literal Unknown label for the missing
component, and that label takes part in the (date, city) key like any
other string, so records sharing the date collapse to a single entry. -/
theorem unknown_label_dedup (p : Place) (fn dateStr timeStr : String) (dt : Option DateTime)
    (c : Coord) (es : List VisitEntry)
    (htruthy : (optTruthy p.city || optTruthy p.country) = true) :
    (p.city = none → p.city.getD "Unknown" = "Unknown")
    ∧ (p.country = none → p.country.getD "Unknown" = "Unknown")
    ∧ countKey
        (addImage fn dateStr timeStr (p.city.getD "Unknown") (p.country.getD "Unknown") dt c es)
        dateStr (p.city.getD "Unknown") =
      if countKey es dateStr (p.city.getD "Unknown") = 0 then 1
      else countKey es dateStr (p.city.getD "Unknown") := by
  refine ⟨fun h => by rw [h]; rfl, fun h => by rw [h]; rfl, ?_⟩
  exact countKey_addImage fn dateStr timeStr _ _ dt c es

theorem unknown_label_dedup_witness :
    countKey
        (addImage "a.jpg" "2024-01-01" "08:00:00"
          ((Place.mk none (some "France")).city.getD "Unknown")
          ((Place.mk none (some "France")).country.getD "Unknown")
          (some (DateTime.mk 2024 1 1 8 0 0)) ((1 : Int), (2 : Int))
          [mkEntry "z.jpg" "2024-01-01" "07:00:00" "Unknown" "France" ((1 : Int), (2 : Int))])
        "2024-01-01" ((Place.mk none (some "France")).city.getD "Unknown") =
      if countKey
          [mkEntry "z.jpg" "2024-01-01" "07:00:00" "Unknown" "France" ((1 : Int), (2 : Int))]
          "2024-01-01" ((Place.mk none (some "France")).city.getD "Unknown") = 0 then 1
      else countKey
          [mkEntry "z.jpg" "2024-01-01" "07:00:00" "Unknown" "France" ((1 : Int), (2 : Int))]
          "2024-01-01" ((Place.mk none (some "France")).city.getD "Unknown") :=
  (unknown_label_dedup (Place.mk none (some "France")) "a.jpg" "2024-01-01" "08:00:00"
    (some (DateTime.mk 2024 1 1 8 0 0)) ((1 : Int), (2 : Int))
    [mkEntry "z.jpg" "2024-01-01" "07:00:00" "Unknown" "France" ((1 : Int), (2 : Int))]
    (by decide)).2.2

/-! ## Key uniqueness and persistence (claim C6) -/

/-- The dedup key of an entry. -/
def entryKey (e : VisitEntry) : String × String := (e.date, e.city)

/-- The keys of a folder list, in position order. -/
def keysOf (es : List VisitEntry) : List (String × String) := es.map entryKey

theorem addImage_keys (fn dateStr timeStr city country : String) (dt : Option DateTime)
    (c : Coord) (es : List VisitEntry) :
    keysOf (addImage fn dateStr timeStr city country dt c es) =
      if containsKey es dateStr city then keysOf es
      else keysOf es ++ [(dateStr, city)] := by
  induction es with
  | nil => simp [addImage, containsKey, keysOf, entryKey, mkEntry]
  | cons e rest ih =>
    unfold addImage containsKey
    by_cases hk : e.date = dateStr ∧ e.city = city
    · rw [if_pos hk, if_pos hk, if_pos rfl]
      split_ifs with hr
      · simp [keysOf, entryKey, mkEntry, hk.1, hk.2]
      · rfl
    · rw [if_neg hk, if_neg hk]
      have hmap : ∀ l, keysOf (e :: l) = entryKey e :: keysOf l := fun l => rfl
      rw [hmap, hmap, ih]
      split_ifs <;> rfl

theorem containsKey_iff (es : List VisitEntry) (d ci : String) :
    containsKey es d ci = true ↔ (d, ci) ∈ keysOf es := by
  induction es with
  | nil => simp [containsKey, keysOf]
  | cons e rest ih =>
    unfold containsKey
    by_cases hk : e.date = d ∧ e.city = ci
    · rw [if_pos hk]
      simp only [keysOf, List.map_cons, List.mem_cons]
      constructor
      · intro _
        left
        simp [entryKey, hk.1, hk.2]
      · intro _
        trivial
    · rw [if_neg hk]
      simp only [keysOf, List.map_cons, List.mem_cons]
      rw [ih]
      constructor
      · intro h; right; exact h
      · intro h
        cases h with
        | inl he =>
          exfalso
          apply hk
          simp [entryKey] at he
          exact ⟨he.1.symm, he.2.symm⟩
        | inr hm => exact hm

theorem addImage_nodup (fn dateStr timeStr city country : String) (dt : Option DateTime)
    (c : Coord) (es : List VisitEntry) (h : (keysOf es).Nodup) :
    (keysOf (addImage fn dateStr timeStr city country dt c es)).Nodup := by
  rw [addImage_keys]
  split_ifs with hc
  · exact h
  · rw [List.nodup_append]
    refine ⟨h, List.nodup_singleton _, ?_⟩
    intro x hx hx2
    simp only [List.mem_singleton] at hx2
    subst hx2
    have := (containsKey_iff es dateStr city).mpr hx
    rw [this] at hc
    exact hc rfl

theorem addImage_keys_superset (fn dateStr timeStr city country : String)
    (dt : Option DateTime) (c : Coord) (es : List VisitEntry) (k : String × String)
    (h : k ∈ keysOf es) : k ∈ keysOf (addImage fn dateStr timeStr city country dt c es) := by
  rw [addImage_keys]
  split_ifs
  · exact h
  · exact List.mem_append_left _ h

theorem resolveGps_results (quantize : Coord → QKey) (oracle : Coord → Nat → GeoAttempt)
    (st : ScanState) (c : Coord) : (resolveGps quantize oracle st c).2.results = st.results := by
  unfold resolveGps
  cases cacheLookup st.cache (quantize c) <;> rfl

theorem lookupFolder_updateFolder_self (rs : List (String × List VisitEntry)) (f : String)
    (g : List VisitEntry → List VisitEntry) :
    lookupFolder (updateFolder rs f g) f = some (g ((lookupFolder rs f).getD [])) := by
  induction rs with
  | nil => simp [updateFolder, lookupFolder]
  | cons fe rest ih =>
    obtain ⟨n, es⟩ := fe
    unfold updateFolder
    by_cases hn : n = f
    · rw [if_pos hn]
      unfold lookupFolder
      rw [if_pos hn, if_pos hn]
      rfl
    · rw [if_neg hn]
      unfold lookupFolder
      rw [if_neg hn, if_neg hn]
      exact ih

theorem lookupFolder_updateFolder_other (rs : List (String × List VisitEntry)) (f f2 : String)
    (g : List VisitEntry → List VisitEntry) (hne : f2 ≠ f) :
    lookupFolder (updateFolder rs f g) f2 = lookupFolder rs f2 := by
  induction rs with
  | nil =>
    simp only [updateFolder, lookupFolder]
    rw [if_neg (fun h => hne h.symm)]
  | cons fe rest ih =>
    obtain ⟨n, es⟩ := fe
    unfold updateFolder
    by_cases hn : n = f
    · rw [if_pos hn]
      unfold lookupFolder
      rw [if_neg (fun h => hne (hn ▸ h).symm), if_neg (fun h => hne (hn ▸ h).symm)]
    · rw [if_neg hn]
      unfold lookupFolder
      by_cases hn2 : n = f2
      · rw [if_pos hn2, if_pos hn2]
      · rw [if_neg hn2, if_neg hn2]
        exact ih

theorem mem_updateFolder {rs : List (String × List VisitEntry)} {f : String}
    {g : List VisitEntry → List VisitEntry} {fe : String × List VisitEntry}
    (h : fe ∈ updateFolder rs f g) :
    fe ∈ rs ∨ ∃ es, fe = (f, g es) ∧ ((f, es) ∈ rs ∨ es = []) := by
  induction rs with
  | nil =>
    simp only [updateFolder, List.mem_singleton] at h
    right
    exact ⟨[], h, Or.inr rfl⟩
  | cons fe2 rest ih =>
    obtain ⟨n, es⟩ := fe2
    unfold updateFolder at h
    by_cases hn : n = f
    · rw [if_pos hn] at h
      cases List.mem_cons.mp h with
      | inl he =>
        right
        subst hn
        exact ⟨es, he, Or.inl (List.mem_cons_self _ _)⟩
      | inr hm => left; exact List.mem_cons_of_mem _ hm
    · rw [if_neg hn] at h
      cases List.mem_cons.mp h with
      | inl he => left; subst he; exact List.mem_cons_self _ _
      | inr hm =>
        cases ih hm with
        | inl h2 => left; exact List.mem_cons_of_mem _ h2
        | inr h2 =>
          obtain ⟨es2, he2, hm2⟩ := h2
          right
          refine ⟨es2, he2, ?_⟩
          cases hm2 with
          | inl h3 => exact Or.inl (List.mem_cons_of_mem _ h3)
          | inr h3 => exact Or.inr h3

theorem processRecord_results (quantize : Coord → QKey) (oracle : Coord → Nat → GeoAttempt)
    (st : ScanState) (r : ImageRecord) :
    (processRecord quantize oracle st r).results = st.results ∨
    ∃ fn dateStr timeStr city country dt c,
      (processRecord quantize oracle st r).results =
        updateFolder st.results r.folder (addImage fn dateStr timeStr city country dt c) := by
  unfold processRecord
  cases hg : r.gps with
  | none => left; rfl
  | some c =>
    simp only []
    cases hl : (resolveGps quantize oracle st c).1 with
    | none =>
      simp only [hl]
      left
      exact resolveGps_results quantize oracle st c
    | some p =>
      simp only [hl]
      split_ifs with ht
      · right
        refine ⟨r.filename,
          (match r.dateTaken with | some t => fmtDate t | none => "Unknown"),
          (match r.dateTaken with | some t => fmtTime t | none => "Unknown"),
          p.city.getD "Unknown", p.country.getD "Unknown", r.dateTaken, c, ?_⟩
        simp only []
        rw [resolveGps_results quantize oracle st c]
      · left
        exact resolveGps_results quantize oracle st c

theorem processRecord_nodup (quantize : Coord → QKey) (oracle : Coord → Nat → GeoAttempt)
    (st : ScanState) (r : ImageRecord)
    (h : ∀ fe ∈ st.results, (keysOf fe.2).Nodup) :
    ∀ fe ∈ (processRecord quantize oracle st r).results, (keysOf fe.2).Nodup := by
  intro fe hfe
  cases processRecord_results quantize oracle st r with
  | inl he => rw [he] at hfe; exact h fe hfe
  | inr he =>
    obtain ⟨fn, dateStr, timeStr, city, country, dt, c, hupd⟩ := he
    rw [hupd] at hfe
    cases mem_updateFolder hfe with
    | inl hm => exact h fe hm
    | inr hm =>
      obtain ⟨es, hfe2, hm2⟩ := hm
      subst hfe2
      apply addImage_nodup
      cases hm2 with
      | inl h3 => exact h _ h3
      | inr h3 => subst h3; simp [keysOf]

theorem processRecord_persist (quantize : Coord → QKey) (oracle : Coord → Nat → GeoAttempt)
    (st : ScanState) (r : ImageRecord) (f : String) (es : List VisitEntry)
    (k : String × String) (h : lookupFolder st.results f = some es) (hk : k ∈ keysOf es) :
    ∃ es2, lookupFolder (processRecord quantize oracle st r).results f = some es2 ∧
      k ∈ keysOf es2 := by
  cases processRecord_results quantize oracle st r with
  | inl he => exact ⟨es, by rw [he]; exact h, hk⟩
  | inr he =>
    obtain ⟨fn, dateStr, timeStr, city, country, dt, c, hupd⟩ := he
    rw [hupd]
    by_cases hf : f = r.folder
    · subst hf
      rw [lookupFolder_updateFolder_self, h]
      exact ⟨_, rfl, addImage_keys_superset fn dateStr timeStr city country dt c es k hk⟩
    · rw [lookupFolder_updateFolder_other _ _ _ _ hf]
      exact ⟨es, h, hk⟩

theorem scanAux_nodup (quantize : Coord → QKey) (oracle : Coord → Nat → GeoAttempt) :
    ∀ (recs : List ImageRecord) (st : ScanState),
      (∀ fe ∈ st.results, (keysOf fe.2).Nodup) →
      ∀ fe ∈ (scanAux quantize oracle st recs).results, (keysOf fe.2).Nodup := by
  intro recs
  induction recs with
  | nil => intro st h; exact h
  | cons r rest ih =>
    intro st h
    exact ih (processRecord quantize oracle st r) (processRecord_nodup quantize oracle st r h)

theorem scanAux_persist (quantize : Coord → QKey) (oracle : Coord → Nat → GeoAttempt) :
    ∀ (recs : List ImageRecord) (st : ScanState) (f : String) (es : List VisitEntry)
      (k : String × String), lookupFolder st.results f = some es → k ∈ keysOf es →
      ∃ es2, lookupFolder (scanAux quantize oracle st recs).results f = some es2 ∧
        k ∈ keysOf es2 := by
  intro recs
  induction recs with
  | nil => intro st f es k h hk; exact ⟨es, h, hk⟩
  | cons r rest ih =>
    intro st f es k h hk
    obtain ⟨es2, h2, hk2⟩ := processRecord_persist quantize oracle st r f es k h hk
    exact ih (processRecord quantize oracle st r) f es2 k h2 hk2

theorem scanAux_append (quantize : Coord → QKey) (oracle : Coord → Nat → GeoAttempt)
    (pre post : List ImageRecord) :
    ∀ st, scanAux quantize oracle st (pre ++ post) =
      scanAux quantize oracle (scanAux quantize oracle st pre) post := by
  induction pre with
  | nil => intro st; rfl
  | cons r rest ih => intro st; exact ih (processRecord quantize oracle st r)

/-- Claim C6: within a run, a colliding image replaces the first
matching entry in place and never appends a duplicate, the replacement
never changes the (date, city) key (the folder key list is unchanged on
a collision and extended by the new key otherwise); consequently every
folder holds at most one entry per (date, city) at every point of the
scan, and a key, once present in a folder, is never lost by later
processing. -/
theorem visit_entry_key_invariant :
    (∀ (fn dateStr timeStr city country : String) (dt : Option DateTime) (c : Coord)
      (es : List VisitEntry),
      keysOf (addImage fn dateStr timeStr city country dt c es) =
        if containsKey es dateStr city then keysOf es
        else keysOf es ++ [(dateStr, city)])
    ∧ (∀ (quantize : Coord → QKey) (oracle : Coord → Nat → GeoAttempt)
        (recs : List ImageRecord),
        ∀ fe ∈ (scanAux quantize oracle initState recs).results, (keysOf fe.2).Nodup)
    ∧ (∀ (quantize : Coord → QKey) (oracle : Coord → Nat → GeoAttempt)
        (pre post : List ImageRecord) (f : String) (es : List VisitEntry)
        (k : String × String),
        lookupFolder (scanAux quantize oracle initState pre).results f = some es →
        k ∈ keysOf es →
        ∃ es2,
          lookupFolder (scanAux quantize oracle initState (pre ++ post)).results f = some es2 ∧
          k ∈ keysOf es2) := by
  refine ⟨addImage_keys, ?_, ?_⟩
  · intro quantize oracle recs
    exact scanAux_nodup quantize oracle recs initState (by simp [initState])
  · intro quantize oracle pre post f es k h hk
    rw [scanAux_append quantize oracle pre post initState]
    exact scanAux_persist quantize oracle post _ f es k h hk

/-- A concrete quantizer used by the example runs: one cell per ten
units in each direction. -/
def quantizeCell (c : Coord) : QKey := (c.1 / 10, c.2 / 10)

/-- An example oracle: every attempt succeeds with the same place. -/
def oracleDoha : Coord → Nat → GeoAttempt :=
  fun _ _ => GeoAttempt.ok (Place.mk (some "Doha") (some "Qatar"))

/-- Example records: recA and recB share the quantized cell (1, 2),
recC lies in the cell (3, 4). -/
def recA : ImageRecord :=
  ImageRecord.mk "a.jpg" "trip" (some (11, 22)) (some (DateTime.mk 2024 1 1 14 0 0))

def recB : ImageRecord :=
  ImageRecord.mk "b.jpg" "trip" (some (13, 24)) (some (DateTime.mk 2024 1 1 8 0 0))

def recC : ImageRecord :=
  ImageRecord.mk "c.jpg" "trip" (some (31, 41)) (some (DateTime.mk 2023 5 1 9 0 0))

theorem visit_entry_key_invariant_witness :
    (keysOf
      [VisitEntry.mk "b.jpg" "2024-01-01" "08:00:00" "Doha" "Qatar" ((13 : Int), (24 : Int)),
       VisitEntry.mk "c.jpg" "2023-05-01" "09:00:00" "Doha" "Qatar"
         ((31 : Int), (41 : Int))]).Nodup :=
  visit_entry_key_invariant.2.1 quantizeCell oracleDoha [recA, recB, recC]
    ("trip",
      [VisitEntry.mk "b.jpg" "2024-01-01" "08:00:00" "Doha" "Qatar" ((13 : Int), (24 : Int)),
       VisitEntry.mk "c.jpg" "2023-05-01" "09:00:00" "Doha" "Qatar" ((31 : Int), (41 : Int))])
    (by decide)

/-! ## Per-folder output ordering (claim C9) -/

instance : IsTotal VisitEntry entryLE :=
  ⟨by
    intro a b
    unfold entryLE
    rcases lt_trichotomy a.date b.date with h | h | h
    · exact Or.inl (Or.inl h)
    · rcases le_total a.time b.time with h2 | h2
      · exact Or.inl (Or.inr ⟨h, h2⟩)
      · exact Or.inr (Or.inr ⟨h.symm, h2⟩)
    · exact Or.inr (Or.inl h)⟩

instance : IsTrans VisitEntry entryLE :=
  ⟨by
    intro a b c hab hbc
    unfold entryLE at hab hbc ⊢
    rcases hab with h1 | ⟨h1, h1t⟩ <;> rcases hbc with h2 | ⟨h2, h2t⟩
    · exact Or.inl (lt_trans h1 h2)
    · exact Or.inl (h2 ▸ h1)
    · exact Or.inl (h1 ▸ h2)
    · exact Or.inr ⟨h1.trans h2, le_trans h1t h2t⟩⟩

/-- Claim C9: after the scan finalizes, every folder list is sorted
ascending by the (date, time) string pair, lexicographically; moreover a
string beginning with a decimal digit (every strftime date or time)
orders strictly before the Unknown label, so Unknown entries sort after
all real dates and times. -/
theorem folder_entries_sorted (quantize : Coord → QKey) (oracle : Coord → Nat → GeoAttempt)
    (records : List ImageRecord) :
    (∀ fe ∈ (scan_images quantize oracle records).results, List.Sorted entryLE fe.2)
    ∧ ∀ (ch : Char) (cs : List Char), ch.isDigit = true →
        String.mk (ch :: cs) < "Unknown" := by
  constructor
  · intro fe hfe
    unfold scan_images at hfe
    simp only [finalizeResults, List.mem_map] at hfe
    obtain ⟨fe2, -, hfe2⟩ := hfe
    rw [← hfe2]
    exact List.sorted_insertionSort entryLE fe2.2
  · intro ch cs h
    rw [String.lt_iff_toList_lt]
    have h9 : ch ≤ '9' := by
      simp [Char.isDigit] at h
      exact h.2
    exact List.Lex.rel (lt_of_le_of_lt h9 (by decide))

theorem folder_entries_sorted_witness :
    List.Sorted entryLE
      [VisitEntry.mk "c.jpg" "2023-05-01" "09:00:00" "Doha" "Qatar" ((31 : Int), (41 : Int)),
       VisitEntry.mk "b.jpg" "2024-01-01" "08:00:00" "Doha" "Qatar" ((13 : Int), (24 : Int))] :=
  (folder_entries_sorted quantizeCell oracleDoha [recA, recB, recC]).1
    ("trip",
      [VisitEntry.mk "c.jpg" "2023-05-01" "09:00:00" "Doha" "Qatar" ((31 : Int), (41 : Int)),
       VisitEntry.mk "b.jpg" "2024-01-01" "08:00:00" "Doha" "Qatar" ((13 : Int), (24 : Int))])
    (by decide)

/-! ## Summary ordering (claim C4) -/

instance : IsTotal CityCount cityOrd :=
  ⟨by
    intro a b
    unfold cityOrd
    rcases lt_trichotomy a.visits b.visits with h | h | h
    · exact Or.inr (Or.inl h)
    · rcases le_total a.name b.name with h2 | h2
      · exact Or.inl (Or.inr ⟨h, h2⟩)
      · exact Or.inr (Or.inr ⟨h.symm, h2⟩)
    · exact Or.inl (Or.inl h)⟩

instance : IsTrans CityCount cityOrd :=
  ⟨by
    intro a b c hab hbc
    unfold cityOrd at hab hbc ⊢
    rcases hab with h1 | ⟨h1, h1n⟩ <;> rcases hbc with h2 | ⟨h2, h2n⟩
    · exact Or.inl (lt_trans h2 h1)
    · exact Or.inl (by omega)
    · exact Or.inl (by omega)
    · exact Or.inr ⟨h1.trans h2, le_trans h1n h2n⟩⟩

instance : IsTotal CountrySummary countryOrd :=
  ⟨by
    intro a b
    unfold countryOrd
    rcases lt_trichotomy a.first_visit_date b.first_visit_date with h | h | h
    · exact Or.inl (Or.inl h)
    · rcases le_total a.name b.name with h2 | h2
      · exact Or.inl (Or.inr ⟨h, h2⟩)
      · exact Or.inr (Or.inr ⟨h.symm, h2⟩)
    · exact Or.inr (Or.inl h)⟩

instance : IsTrans CountrySummary countryOrd :=
  ⟨by
    intro a b c hab hbc
    unfold countryOrd at hab hbc ⊢
    rcases hab with h1 | ⟨h1, h1n⟩ <;> rcases hbc with h2 | ⟨h2, h2n⟩
    · exact Or.inl (lt_trans h1 h2)
    · exact Or.inl (h2 ▸ h1)
    · exact Or.inl (h1 ▸ h2)
    · exact Or.inr ⟨h1.trans h2, le_trans h1n h2n⟩⟩

/-- Claim C4: the summary lists countries sorted ascending by
(first_visit_date, name) and, inside each country, cities sorted by
visits descending with alphabetical tie-break. -/
theorem summary_ordering (data : List FolderData) :
    List.Sorted countryOrd (generate_summary data)
    ∧ ∀ co ∈ generate_summary data, List.Sorted cityOrd co.cities := by
  constructor
  · exact List.sorted_insertionSort countryOrd _
  · intro co hco
    unfold generate_summary at hco
    have hmem := (List.perm_insertionSort countryOrd _).mem_iff.mp hco
    simp only [List.mem_map] at hmem
    obtain ⟨coName, -, hco2⟩ := hmem
    rw [← hco2]
    exact List.sorted_insertionSort cityOrd _

theorem summary_ordering_witness :
    List.Sorted cityOrd
      [CityCount.mk "Doha" 2, CityCount.mk "Lusail" 2, CityCount.mk "Dukhan" 1] :=
  (summary_ordering
    [FolderData.mk "A"
      [VisitEntry.mk "a" "2024-01-01" "08:00:00" "Doha" "Qatar" ((1 : Int), (2 : Int)),
       VisitEntry.mk "b" "2024-01-02" "08:00:00" "Doha" "Qatar" ((1 : Int), (2 : Int)),
       VisitEntry.mk "c" "2024-01-01" "09:00:00" "Lusail" "Qatar" ((1 : Int), (2 : Int)),
       VisitEntry.mk "d" "2024-01-03" "09:00:00" "Lusail" "Qatar" ((1 : Int), (2 : Int)),
       VisitEntry.mk "e" "2024-01-04" "10:00:00" "Dukhan" "Qatar" ((1 : Int), (2 : Int))]]).2
    (CountrySummary.mk "Qatar" "2024-01-01"
      [CityCount.mk "Doha" 2, CityCount.mk "Lusail" 2, CityCount.mk "Dukhan" 1])
    (by decide)

/-! ## Cache behaviour (claims C1 and C10) -/

theorem resolveGps_hit (quantize : Coord → QKey) (oracle : Coord → Nat → GeoAttempt)
    (st : ScanState) (c : Coord) (v : Place)
    (h : cacheLookup st.cache (quantize c) = some v) :
    resolveGps quantize oracle st c = (some v, st) := by
  unfold resolveGps
  rw [h]

theorem resolveGps_miss_some (quantize : Coord → QKey) (oracle : Coord → Nat → GeoAttempt)
    (st : ScanState) (c : Coord) (p : Place)
    (h : cacheLookup st.cache (quantize c) = none)
    (hres : (get_location c (oracle c) st.timeoutCount st.errors st.sleeps 3 1).res = some p) :
    (resolveGps quantize oracle st c).1 = some p ∧
    (resolveGps quantize oracle st c).2.cache = st.cache ++ [(quantize c, p)] ∧
    (resolveGps quantize oracle st c).2.resolverCalls = st.resolverCalls + 1 ∧
    (resolveGps quantize oracle st c).2.results = st.results := by
  unfold resolveGps
  rw [h]
  simp [hres]

theorem resolveGps_miss_none (quantize : Coord → QKey) (oracle : Coord → Nat → GeoAttempt)
    (st : ScanState) (c : Coord)
    (h : cacheLookup st.cache (quantize c) = none)
    (hres : (get_location c (oracle c) st.timeoutCount st.errors st.sleeps 3 1).res = none) :
    (resolveGps quantize oracle st c).1 = none ∧
    (resolveGps quantize oracle st c).2.cache = st.cache ∧
    (resolveGps quantize oracle st c).2.resolverCalls = st.resolverCalls + 1 := by
  unfold resolveGps
  rw [h]
  simp [hres]

theorem cacheLookup_append (cache ext : List (QKey × Place)) (k : QKey) (v : Place)
    (h : cacheLookup cache k = some v) : cacheLookup (cache ++ ext) k = some v := by
  induction cache with
  | nil => exact Option.noConfusion h
  | cons kv rest ih =>
    obtain ⟨k2, v2⟩ := kv
    simp only [cacheLookup, List.cons_append] at h ⊢
    by_cases hk : k2 = k
    · rwa [if_pos hk] at h ⊢
    · rw [if_neg hk] at h ⊢
      exact ih h

theorem cacheLookup_append_new (cache : List (QKey × Place)) (k : QKey) (p : Place)
    (h : cacheLookup cache k = none) : cacheLookup (cache ++ [(k, p)]) k = some p := by
  induction cache with
  | nil => simp [cacheLookup]
  | cons kv rest ih =>
    obtain ⟨k2, v2⟩ := kv
    simp only [cacheLookup, List.cons_append] at h ⊢
    by_cases hk : k2 = k
    · rw [if_pos hk] at h; exact Option.noConfusion h
    · rw [if_neg hk] at h ⊢
      exact ih h

theorem resolveGps_cache_extends (quantize : Coord → QKey) (oracle : Coord → Nat → GeoAttempt)
    (st : ScanState) (c : Coord) :
    ∃ ext, (resolveGps quantize oracle st c).2.cache = st.cache ++ ext := by
  unfold resolveGps
  cases hl : cacheLookup st.cache (quantize c) with
  | some v => exact ⟨[], by simp⟩
  | none =>
    simp only []
    cases (get_location c (oracle c) st.timeoutCount st.errors st.sleeps 3 1).res with
    | some p => exact ⟨[(quantize c, p)], rfl⟩
    | none => exact ⟨[], by simp⟩

theorem processRecord_cache_extends (quantize : Coord → QKey) (oracle : Coord → Nat → GeoAttempt)
    (st : ScanState) (r : ImageRecord) :
    ∃ ext, (processRecord quantize oracle st r).cache = st.cache ++ ext := by
  cases hg : r.gps with
  | none =>
    refine ⟨[], ?_⟩
    unfold processRecord
    rw [hg]
    simp
  | some c =>
    obtain ⟨ext, he⟩ := resolveGps_cache_extends quantize oracle st c
    refine ⟨ext, ?_⟩
    unfold processRecord
    rw [hg]
    simp only []
    cases hl : (resolveGps quantize oracle st c).1 with
    | none => simp only [hl]; exact he
    | some p =>
      simp only [hl]
      split_ifs with ht
      · exact he
      · exact he

theorem processRecord_cache_preserves (quantize : Coord → QKey)
    (oracle : Coord → Nat → GeoAttempt) (st : ScanState) (r : ImageRecord) (k : QKey) (v : Place)
    (h : cacheLookup st.cache k = some v) :
    cacheLookup (processRecord quantize oracle st r).cache k = some v := by
  obtain ⟨ext, hext⟩ := processRecord_cache_extends quantize oracle st r
  rw [hext]
  exact cacheLookup_append st.cache ext k v h

theorem scanAux_cache_preserves (quantize : Coord → QKey) (oracle : Coord → Nat → GeoAttempt) :
    ∀ (recs : List ImageRecord) (st : ScanState) (k : QKey) (v : Place),
      cacheLookup st.cache k = some v →
      cacheLookup (scanAux quantize oracle st recs).cache k = some v := by
  intro recs
  induction recs with
  | nil => intro st k v h; exact h
  | cons r rest ih =>
    intro st k v h
    exact ih _ k v (processRecord_cache_preserves quantize oracle st r k v h)

theorem processRecord_hit_state (quantize : Coord → QKey) (oracle : Coord → Nat → GeoAttempt)
    (st : ScanState) (r : ImageRecord) (c : Coord) (v : Place) (hg : r.gps = some c)
    (h : cacheLookup st.cache (quantize c) = some v) :
    (processRecord quantize oracle st r).cache = st.cache ∧
    (processRecord quantize oracle st r).resolverCalls = st.resolverCalls := by
  unfold processRecord
  rw [hg]
  simp only [resolveGps_hit quantize oracle st c v h]
  split_ifs <;> exact ⟨rfl, rfl⟩

theorem scanAux_all_hits (quantize : Coord → QKey) (oracle : Coord → Nat → GeoAttempt)
    (k : QKey) (v : Place) :
    ∀ (recs : List ImageRecord) (st : ScanState),
      cacheLookup st.cache k = some v →
      (∀ r ∈ recs, ∃ c, r.gps = some c ∧ quantize c = k) →
      (scanAux quantize oracle st recs).resolverCalls = st.resolverCalls ∧
      (scanAux quantize oracle st recs).cache = st.cache := by
  intro recs
  induction recs with
  | nil => intro st _ _; exact ⟨rfl, rfl⟩
  | cons r rest ih =>
    intro st h hall
    obtain ⟨c, hg, hqc⟩ := hall r (List.mem_cons_self _ _)
    have hlk : cacheLookup st.cache (quantize c) = some v := by rwa [hqc]
    obtain ⟨hc, hr⟩ := processRecord_hit_state quantize oracle st r c v hg hlk
    have h2 : cacheLookup (processRecord quantize oracle st r).cache k = some v := by
      rwa [hc]
    obtain ⟨ihr, ihc⟩ := ih (processRecord quantize oracle st r) h2
      (fun r2 hr2 => hall r2 (List.mem_cons_of_mem _ hr2))
    simp only [scanAux]
    rw [ihr, ihc, hr, hc]
    exact ⟨rfl, rfl⟩

theorem processRecord_miss_some (quantize : Coord → QKey) (oracle : Coord → Nat → GeoAttempt)
    (st : ScanState) (r : ImageRecord) (c : Coord) (p : Place) (hg : r.gps = some c)
    (hl : cacheLookup st.cache (quantize c) = none)
    (hres : (get_location c (oracle c) st.timeoutCount st.errors st.sleeps 3 1).res = some p) :
    (processRecord quantize oracle st r).resolverCalls = st.resolverCalls + 1 ∧
    (processRecord quantize oracle st r).cache = st.cache ++ [(quantize c, p)] := by
  obtain ⟨h1, h2, h3, h4⟩ := resolveGps_miss_some quantize oracle st c p hl hres
  unfold processRecord
  rw [hg]
  simp only [h1]
  split_ifs <;> exact ⟨h3, h2⟩

/-- Claim C1, amended: a cache hit returns the stored place without
touching the resolver or any other state, and every record whose key is
cached is answered from the cache; a cache miss invokes the resolver
once, and the result is stored under the key only when the resolution
succeeded — so N records sharing one key cause exactly one resolver
invocation, and all receive the same place, provided the first
resolution succeeds.  A failed resolution is not cached: the miss is
counted but the cache is left unchanged. -/
theorem cache_at_most_once_amended (quantize : Coord → QKey)
    (oracle : Coord → Nat → GeoAttempt) :
    (∀ (st : ScanState) (c : Coord) (v : Place),
      cacheLookup st.cache (quantize c) = some v →
      resolveGps quantize oracle st c = (some v, st))
    ∧ (∀ (st : ScanState) (c : Coord) (p : Place),
        cacheLookup st.cache (quantize c) = none →
        (get_location c (oracle c) st.timeoutCount st.errors st.sleeps 3 1).res = some p →
        (resolveGps quantize oracle st c).1 = some p ∧
        (resolveGps quantize oracle st c).2.cache = st.cache ++ [(quantize c, p)] ∧
        (resolveGps quantize oracle st c).2.resolverCalls = st.resolverCalls + 1)
    ∧ (∀ (st : ScanState) (c : Coord),
        cacheLookup st.cache (quantize c) = none →
        (get_location c (oracle c) st.timeoutCount st.errors st.sleeps 3 1).res = none →
        (resolveGps quantize oracle st c).1 = none ∧
        (resolveGps quantize oracle st c).2.cache = st.cache ∧
        (resolveGps quantize oracle st c).2.resolverCalls = st.resolverCalls + 1)
    ∧ (∀ (recs : List ImageRecord) (st : ScanState) (k : QKey) (v : Place),
        cacheLookup st.cache k = some v →
        (∀ r ∈ recs, ∃ c, r.gps = some c ∧ quantize c = k) →
        (scanAux quantize oracle st recs).resolverCalls = st.resolverCalls ∧
        ∀ (pre : List ImageRecord) (r : ImageRecord) (post : List ImageRecord),
          recs = pre ++ r :: post → ∀ c2, r.gps = some c2 →
          (resolveGps quantize oracle (scanAux quantize oracle st pre) c2).1 = some v)
    ∧ (∀ (st : ScanState) (r0 : ImageRecord) (recs : List ImageRecord) (c0 : Coord) (p : Place),
        r0.gps = some c0 →
        cacheLookup st.cache (quantize c0) = none →
        (get_location c0 (oracle c0) st.timeoutCount st.errors st.sleeps 3 1).res = some p →
        (∀ r ∈ recs, ∃ c, r.gps = some c ∧ quantize c = quantize c0) →
        (scanAux quantize oracle st (r0 :: recs)).resolverCalls = st.resolverCalls + 1 ∧
        ∀ (pre : List ImageRecord) (r : ImageRecord) (post : List ImageRecord),
          recs = pre ++ r :: post → ∀ c2, r.gps = some c2 →
          (resolveGps quantize oracle
            (scanAux quantize oracle (processRecord quantize oracle st r0) pre) c2).1 =
            some p) := by
  have hhit := resolveGps_hit quantize oracle
  have hfour : ∀ (recs : List ImageRecord) (st : ScanState) (k : QKey) (v : Place),
      cacheLookup st.cache k = some v →
      (∀ r ∈ recs, ∃ c, r.gps = some c ∧ quantize c = k) →
      (scanAux quantize oracle st recs).resolverCalls = st.resolverCalls ∧
      ∀ (pre : List ImageRecord) (r : ImageRecord) (post : List ImageRecord),
        recs = pre ++ r :: post → ∀ c2, r.gps = some c2 →
        (resolveGps quantize oracle (scanAux quantize oracle st pre) c2).1 = some v := by
    intro recs st k v hl hall
    refine ⟨(scanAux_all_hits quantize oracle k v recs st hl hall).1, ?_⟩
    intro pre r post hsplit c2 hg
    have hk2 : quantize c2 = k := by
      obtain ⟨c3, hg3, hq3⟩ := hall r
        (by rw [hsplit]; exact List.mem_append_right _ (List.mem_cons_self _ _))
      rw [hg] at hg3
      injection hg3 with hg3
      rw [← hg3] at hq3
      exact hq3
    have hpre : cacheLookup (scanAux quantize oracle st pre).cache k = some v :=
      scanAux_cache_preserves quantize oracle pre st k v hl
    rw [resolveGps_hit quantize oracle _ c2 v (by rwa [hk2])]
  refine ⟨hhit, ?_, ?_, hfour, ?_⟩
  · intro st c p hl hres
    obtain ⟨h1, h2, h3, -⟩ := resolveGps_miss_some quantize oracle st c p hl hres
    exact ⟨h1, h2, h3⟩
  · intro st c hl hres
    exact resolveGps_miss_none quantize oracle st c hl hres
  · intro st r0 recs c0 p hg0 hl hres hall
    obtain ⟨hcalls, hcache⟩ := processRecord_miss_some quantize oracle st r0 c0 p hg0 hl hres
    have hl1 : cacheLookup (processRecord quantize oracle st r0).cache (quantize c0) = some p := by
      rw [hcache]
      exact cacheLookup_append_new st.cache (quantize c0) p hl
    obtain ⟨hconst, hrecv⟩ := hfour recs (processRecord quantize oracle st r0) (quantize c0) p
      hl1 hall
    constructor
    · show (scanAux quantize oracle (processRecord quantize oracle st r0) recs).resolverCalls =
        st.resolverCalls + 1
      rw [hconst, hcalls]
    · exact hrecv

/-- An oracle whose every attempt raises, for every coordinate. -/
def oracleFail : Coord → Nat → GeoAttempt := fun _ _ => GeoAttempt.err "timed out"

/-- Two records in one quantized cell whose resolution always fails. -/
def recF1 : ImageRecord := ImageRecord.mk "f1.jpg" "trip" (some (11, 22)) none

def recF2 : ImageRecord := ImageRecord.mk "f2.jpg" "trip" (some (13, 24)) none

/-- Counterexample to claim C1 as stated: the two records share one
QuantizedKey, the first lookup fails and returns none, yet the run
issues two resolver calls — a failed resolution is not cached and is
retried for the same key within the run. -/
theorem cache_retries_failed_key :
    recF1.gps = some ((11 : Int), (22 : Int))
    ∧ recF2.gps = some ((13 : Int), (24 : Int))
    ∧ quantizeCell ((11 : Int), (22 : Int)) = quantizeCell ((13 : Int), (24 : Int))
    ∧ (scan_images quantizeCell oracleFail [recF1, recF2]).resolverCalls = 2
    ∧ ¬ (scan_images quantizeCell oracleFail [recF1, recF2]).resolverCalls ≤ 1 := by
  refine ⟨rfl, rfl, rfl, ?_, ?_⟩ <;> decide

theorem cache_at_most_once_amended_witness :
    resolveGps quantizeCell oracleFail
      (ScanState.mk [] [(((1 : Int), (2 : Int)), Place.mk (some "Doha") (some "Qatar"))] 1 0 [] 0)
      ((13 : Int), (24 : Int)) =
      (some (Place.mk (some "Doha") (some "Qatar")),
        ScanState.mk []
          [(((1 : Int), (2 : Int)), Place.mk (some "Doha") (some "Qatar"))] 1 0 [] 0) :=
  (cache_at_most_once_amended quantizeCell oracleFail).1
    (ScanState.mk [] [(((1 : Int), (2 : Int)), Place.mk (some "Doha") (some "Qatar"))] 1 0 [] 0)
    ((13 : Int), (24 : Int)) (Place.mk (some "Doha") (some "Qatar")) (by decide)

/-- Claim C10, amended: a cache miss invokes the resolver with the
original unrounded coordinates of the current image (never with the
quantized key), so the place stored under a key is the one resolved for
the exact coordinates of the first image mapping to that key whose
resolution succeeded, and every image processed after that successful
resolution receives that stored place regardless of its own position
inside the cell. -/
theorem resolver_exact_coordinates_amended (quantize : Coord → QKey)
    (oracle : Coord → Nat → GeoAttempt) :
    (∀ (st : ScanState) (c : Coord),
      cacheLookup st.cache (quantize c) = none →
      (resolveGps quantize oracle st c).1 =
        (get_location c (oracle c) st.timeoutCount st.errors st.sleeps 3 1).res)
    ∧ (∀ (st : ScanState) (c0 c1 : Coord) (p : Place),
        quantize c1 = quantize c0 →
        cacheLookup st.cache (quantize c0) = none →
        (get_location c0 (oracle c0) st.timeoutCount st.errors st.sleeps 3 1).res = some p →
        (resolveGps quantize oracle (resolveGps quantize oracle st c0).2 c1).1 = some p) := by
  constructor
  · intro st c hl
    unfold resolveGps
    rw [hl]
  · intro st c0 c1 p hq hl hres
    obtain ⟨-, hcache, -, -⟩ := resolveGps_miss_some quantize oracle st c0 p hl hres
    have hl1 : cacheLookup (resolveGps quantize oracle st c0).2.cache (quantize c1) = some p := by
      rw [hcache, hq]
      exact cacheLookup_append_new st.cache (quantize c0) p hl
    rw [resolveGps_hit quantize oracle _ c1 p hl1]

/-- An oracle that always fails at the coordinates (11, 22) and always
succeeds at any other coordinates. -/
def oracleSplit : Coord → Nat → GeoAttempt := fun c _ =>
  if c = ((11 : Int), (22 : Int)) then GeoAttempt.err "timed out"
  else GeoAttempt.ok (Place.mk (some "Doha") (some "Qatar"))

/-- Counterexample to claim C10 as stated: the coordinates (11, 22) and
(13, 24) round to the same key and (11, 22) comes first, but its
resolution fails (none), so the later image does not receive the empty
result of the first image: it receives the place resolved at its own
exact coordinates. -/
theorem resolver_first_image_cex :
    quantizeCell ((11 : Int), (22 : Int)) = quantizeCell ((13 : Int), (24 : Int))
    ∧ (get_location ((11 : Int), (22 : Int)) (oracleSplit ((11 : Int), (22 : Int)))
        0 [] 0 3 1).res = none
    ∧ (resolveGps quantizeCell oracleSplit
        (resolveGps quantizeCell oracleSplit initState ((11 : Int), (22 : Int))).2
        ((13 : Int), (24 : Int))).1 = some (Place.mk (some "Doha") (some "Qatar"))
    ∧ (resolveGps quantizeCell oracleSplit
        (resolveGps quantizeCell oracleSplit initState ((11 : Int), (22 : Int))).2
        ((13 : Int), (24 : Int))).1 ≠
      (get_location ((11 : Int), (22 : Int)) (oracleSplit ((11 : Int), (22 : Int)))
        0 [] 0 3 1).res := by
  refine ⟨rfl, ?_, ?_, ?_⟩ <;> decide

theorem resolver_exact_coordinates_amended_witness :
    (resolveGps quantizeCell oracleSplit
      (resolveGps quantizeCell oracleSplit initState ((31 : Int), (41 : Int))).2
      ((33 : Int), (44 : Int))).1 = some (Place.mk (some "Doha") (some "Qatar")) :=
  (resolver_exact_coordinates_amended quantizeCell oracleSplit).2 initState
    ((31 : Int), (41 : Int)) ((33 : Int), (44 : Int))
    (Place.mk (some "Doha") (some "Qatar")) rfl rfl (by decide)

/-! ## Summary day counts (claim C3) -/

theorem mem_generate_summary {data : List FolderData} {co : CountrySummary}
    (h : co ∈ generate_summary data) :
    ∃ coName, coName ∈ countriesOf data ∧
      co = CountrySummary.mk coName (firstVisitDate data coName)
        (List.insertionSort cityOrd
          ((citiesOfCountry data coName).map (fun ci =>
            CityCount.mk ci (cityDates data coName ci).length))) := by
  unfold generate_summary at h
  have h2 := (List.perm_insertionSort countryOrd _).mem_iff.mp h
  simp only [List.mem_map] at h2
  obtain ⟨coName, hmem, heq⟩ := h2
  exact ⟨coName, hmem, heq.symm⟩

theorem mem_summary_cities {data : List FolderData} {coName : String} {ci : CityCount}
    (h : ci ∈ List.insertionSort cityOrd
      ((citiesOfCountry data coName).map (fun ci =>
        CityCount.mk ci (cityDates data coName ci).length))) :
    ∃ ciName, ciName ∈ citiesOfCountry data coName ∧
      ci = CityCount.mk ciName (cityDates data coName ciName).length := by
  have h2 := (List.perm_insertionSort cityOrd _).mem_iff.mp h
  simp only [List.mem_map] at h2
  obtain ⟨ciName, hmem, heq⟩ := h2
  exact ⟨ciName, hmem, heq.symm⟩

theorem qualifying_entry_facts {data : List FolderData} {e : VisitEntry}
    (h : e ∈ qualifyingEntries data) :
    e.city ≠ "Unknown" ∧ e.country ≠ "Unknown" ∧ e.date ≠ "Unknown" := by
  unfold qualifyingEntries at h
  have h2 := List.of_mem_filter h
  simp only [qualifies, Bool.and_eq_true, decide_eq_true_eq, bne_iff_ne, ne_eq,
    decide_not, Bool.not_eq_true', decide_eq_false_iff_not] at h2
  exact ⟨h2.1.1, h2.1.2, h2.2⟩

theorem mem_countriesOf {data : List FolderData} {co : String} (h : co ∈ countriesOf data) :
    ∃ e, e ∈ qualifyingEntries data ∧ e.country = co := by
  unfold countriesOf at h
  rw [List.mem_dedup] at h
  simp only [List.mem_map] at h
  exact h

theorem mem_citiesOfCountry {data : List FolderData} {co ci : String}
    (h : ci ∈ citiesOfCountry data co) :
    ∃ e, e ∈ qualifyingEntries data ∧ e.country = co ∧ e.city = ci := by
  unfold citiesOfCountry at h
  rw [List.mem_dedup] at h
  simp only [List.mem_map, List.mem_filter] at h
  obtain ⟨e, ⟨⟨he, hco⟩, hci⟩⟩ := h
  exact ⟨e, he, by simpa using hco, hci⟩

theorem qualifyingEntries_filter (data : List FolderData) :
    qualifyingEntries (data.map (fun f => FolderData.mk f.name (f.images.filter qualifies))) =
      qualifyingEntries data := by
  unfold qualifyingEntries
  induction data with
  | nil => rfl
  | cons f fs ih =>
    simp only [List.map_cons, allImages, List.filter_append]
    rw [List.filter_filter]
    simp only [Bool.and_self]
    rw [ih]

theorem generate_summary_filter (data : List FolderData) :
    generate_summary (data.map (fun f => FolderData.mk f.name (f.images.filter qualifies))) =
      generate_summary data := by
  unfold generate_summary countriesOf citiesOfCountry cityDates firstVisitDate countryDates
  rw [qualifyingEntries_filter]

/-- Claim C3: in the summary, every listed visit count equals the number
of distinct date strings on which the city appears for that country
across all folders, every first_visit_date is the minimum (under the
parsed chronological order) of all the qualifying dates of that country and
is itself one of them, no Unknown country or city name appears, and
entries with an Unknown city, country or date contribute nothing: the
summary of the data with those entries removed is the same summary. -/
theorem summary_day_counts (data : List FolderData)
    (hv : ∀ e ∈ qualifyingEntries data, (parseDate e.date).isSome = true) :
    (∀ co ∈ generate_summary data, ∀ ci ∈ co.cities,
      ci.visits = (((qualifyingEntries data).filter
          (fun e => e.country = co.name ∧ e.city = ci.name)).map
        VisitEntry.date).toFinset.card)
    ∧ (∀ co ∈ generate_summary data,
        co.first_visit_date ∈ countryDates data co.name ∧
        ∀ d ∈ countryDates data co.name, ∀ t t2 : DateTime,
          parseDate co.first_visit_date = some t → parseDate d = some t2 →
          ¬ t2.ltb t = true)
    ∧ (∀ co ∈ generate_summary data, co.name ≠ "Unknown" ∧
        ∀ ci ∈ co.cities, ci.name ≠ "Unknown")
    ∧ generate_summary
        (data.map (fun f => FolderData.mk f.name (f.images.filter qualifies))) =
      generate_summary data := by
  refine ⟨?_, ?_, ?_, generate_summary_filter data⟩
  · intro co hco ci hci
    obtain ⟨coName, hcoMem, hcoEq⟩ := mem_generate_summary hco
    subst hcoEq
    obtain ⟨ciName, hciMem, hciEq⟩ := mem_summary_cities hci
    subst hciEq
    show (cityDates data coName ciName).length = _
    rw [List.card_toFinset]
    rfl
  · intro co hco
    obtain ⟨coName, hcoMem, hcoEq⟩ := mem_generate_summary hco
    subst hcoEq
    obtain ⟨e, he, hec⟩ := mem_countriesOf hcoMem
    have hdate : e.date ∈ countryDates data coName := by
      unfold countryDates
      refine List.mem_map.mpr ⟨e, ?_, rfl⟩
      exact List.mem_filter.mpr ⟨he, by simp [hec]⟩
    obtain ⟨t0, ht0⟩ := Option.isSome_iff_exists.mp (hv e he)
    have hmemfm : t0 ∈ (countryDates data coName).filterMap parseDate :=
      List.mem_filterMap.mpr ⟨e.date, hdate, ht0⟩
    have hne : (countryDates data coName).filterMap parseDate ≠ [] := by
      intro hnil
      rw [hnil] at hmemfm
      exact absurd hmemfm (List.not_mem_nil _)
    obtain ⟨m, hm⟩ := Option.isSome_iff_exists.mp (minDT_isSome hne)
    have hfv : firstVisitDate data coName = fmtDate m := by
      unfold firstVisitDate
      rw [hm]
    obtain ⟨d0, hd0mem, hd0parse⟩ := List.mem_filterMap.mp (minDT_mem hm)
    obtain ⟨hfmt, -, -, -, -⟩ := parseDate_eq_some hd0parse
    constructor
    · show firstVisitDate data coName ∈ _
      rw [hfv, hfmt]
      exact hd0mem
    · intro d hd t t2 hpt hpt2
      rw [show (CountrySummary.mk coName (firstVisitDate data coName) _).first_visit_date =
        firstVisitDate data coName from rfl, hfv, hfmt, hd0parse] at hpt
      injection hpt with hpt
      subst hpt
      exact minDT_min hm t2 (List.mem_filterMap.mpr ⟨d, hd, hpt2⟩)
  · intro co hco
    obtain ⟨coName, hcoMem, hcoEq⟩ := mem_generate_summary hco
    subst hcoEq
    obtain ⟨e, he, hec⟩ := mem_countriesOf hcoMem
    obtain ⟨-, hcu, -⟩ := qualifying_entry_facts he
    constructor
    · show coName ≠ "Unknown"
      rw [← hec]
      exact hcu
    · intro ci hci
      obtain ⟨ciName, hciMem, hciEq⟩ := mem_summary_cities hci
      subst hciEq
      obtain ⟨e2, he2, -, hec2⟩ := mem_citiesOfCountry hciMem
      obtain ⟨hcu2, -, -⟩ := qualifying_entry_facts he2
      show ciName ≠ "Unknown"
      rw [← hec2]
      exact hcu2

/-- The day-count example of the specification: folder A visits Paris on
two dates, folder B revisits it on the first date. -/
def exampleData : List FolderData :=
  [FolderData.mk "A"
    [VisitEntry.mk "a1" "2024-01-01" "08:00:00" "Paris" "France" ((1 : Int), (2 : Int)),
     VisitEntry.mk "a2" "2024-01-02" "09:00:00" "Paris" "France" ((1 : Int), (2 : Int))],
   FolderData.mk "B"
    [VisitEntry.mk "b1" "2024-01-01" "10:00:00" "Paris" "France" ((1 : Int), (2 : Int))]]

theorem summary_day_counts_witness :
    (CityCount.mk "Paris" 2).visits =
      (((qualifyingEntries exampleData).filter
          (fun e =>
            e.country =
              (CountrySummary.mk "France" "2024-01-01" [CityCount.mk "Paris" 2]).name ∧
            e.city = (CityCount.mk "Paris" 2).name)).map VisitEntry.date).toFinset.card :=
  (summary_day_counts exampleData (by decide)).1
    (CountrySummary.mk "France" "2024-01-01" [CityCount.mk "Paris" 2]) (by decide)
    (CityCount.mk "Paris" 2) (by decide)
